import Mathlib

/-!
AudioOptimizer: the analysis performed by `ProcessFile`.

A shallow embedding of `src/main.cpp`, in two layers.

The first layer idealises the arithmetic: sample values, spectrum magnitudes and
frequencies are rationals (every `float` is one) and the arithmetic on them is
exact; decibel levels and the gain, which go through `log10` and `pow`, are real
numbers.  It carries the statements on the quantization to the ladder, on the
gain, on the rejection of silent streams and on the order of the trim markers.

The second layer, the namespace `Binary32`, performs the arithmetic as the
program does, every `float` operation rounding to the nearest binary32 value,
with the library's `log10f` as a parameter.  It carries the statements whose
truth depends on that rounding: the position of the trim markers relative to the
frames the program finds active, the mono flag, the dominant frequency of a
frame and the percentile index.

Frame offsets are natural numbers, sample rates of the ladder are integers.
Decoding, the FFT (`Gist`) and the export are collaborators: the decoded stream
is given as the list of blocks the decoder returns, the magnitude spectrum is a
parameter.
-/

namespace AudioOptimizer

/-! ## Constants -/

/-- Silence floor, in dB. -/
def MINIMUM_DB : ℚ := -50

/-- Saturation limit, in dB. -/
def LIMIT_DB : ℚ := -6

/-- Contrast window below the global peak, in dB. -/
def CONTRAST_DB : ℚ := 15

/-- Floor added before every logarithm. -/
def EPSILON : ℚ := 1 / 1000000000

/-- Safety margin above the Nyquist rate. -/
def FREQ_MARGIN : ℚ := 115 / 100

/-- Number of PCM frames requested from the decoder per read. -/
def FRAME_SIZE : ℕ := 1024

/-- The ladder of export sample rates. -/
def sampleRates : List ℤ := [8000, 11025, 16000, 24000, 32000, 44100]

/-! ## Decibel utility -/

/-- Linear magnitude to decibels: `20 * log10(mag + EPSILON)`. -/
noncomputable def MagToDb (mag : ℚ) : ℝ :=
  20 * Real.logb 10 ((mag + EPSILON : ℚ) : ℝ)

/-! ## Data model -/

/-- One successful `ma_decoder_read_pcm_frames`: the number of PCM frames read
and the interleaved sample buffer. -/
structure Chunk where
  frameNum : ℕ
  buffer : List ℚ

/-- The entries appended to the global `warnings` vector. -/
inductive Warning where
  | monoConverted
  | trimmed (fromStart fromEnd : ℚ)
  | saturated (maxDb : ℝ)
  | lowVolume (maxDb : ℝ)

/-- The entries appended to the global `errors` vector by the analysis. -/
inductive Error where
  | belowThreshold
  | corrupt (maxFreq sampleRate : ℚ)

/-- The record handed to `ExportAudio`. -/
structure AudioExport where
  sampleRate : ℤ
  mono : Bool
  gain : ℝ
  start : ℕ
  end_ : ℕ

/-- What one call of `ProcessFile` leaves behind: the warnings and errors it
appended, and the export record (`none` when it returned `-1`). -/
structure Outcome where
  warnings : List Warning
  errors : List Error
  result : Option AudioExport

/-- The variables of `ProcessFile` updated by the second pass. -/
structure AnalysisState where
  firstFrame : ℕ
  lastFrame : ℕ
  currentFrame : ℕ
  foundStart : Bool
  mono : Bool
  frameFreqs : List ℚ

/-- The values of those variables before the second pass. -/
def initState : AnalysisState :=
  { firstFrame := 0, lastFrame := 0, currentFrame := 0,
    foundStart := false, mono := true, frameFreqs := [] }

/-! ## First pass: the global peak -/

/-- Body of the peak loop for one block: every sample `buffer[i]`,
`i < frameNum * channels`, raises `peakSample` when its magnitude is larger. -/
def peakOfChunk (channels : ℕ) (c : Chunk) (peakSample : ℚ) : ℚ :=
  (List.range (c.frameNum * channels)).foldl
    (fun p i => if |c.buffer.getD i 0| > p then |c.buffer.getD i 0| else p) peakSample

/-- The first `while` loop: it reads blocks until one comes back empty. -/
def firstPass (channels : ℕ) : ℚ → List Chunk → ℚ
  | peakSample, [] => peakSample
  | peakSample, c :: cs =>
    if c.frameNum > 0 then firstPass channels (peakOfChunk channels c peakSample) cs
    else peakSample

/-! ## Second pass: the frame analysis -/

/-- What the inner `for` loop over one block accumulates. -/
structure FrameScan where
  mono : Bool
  peak : ℚ
  gistFrame : List ℚ

/-- One iteration of the inner `for` loop, at PCM frame `i` of the block. -/
def scanSample (channels : ℕ) (buffer : List ℚ) (s : FrameScan) (i : ℕ) : FrameScan :=
  let mono :=
    if channels ≥ 2 ∧
        |buffer.getD (i * channels) 0 - buffer.getD (i * channels + 1) 0| > EPSILON
    then false else s.mono
  let sample :=
    if channels ≥ 2 then
      (buffer.getD (i * channels) 0 + buffer.getD (i * channels + 1) 0) / 2
    else buffer.getD i 0
  { mono := mono
    peak := if |sample| > s.peak then |sample| else s.peak
    gistFrame := s.gistFrame ++ [sample] }

/-- The inner `for` loop over the `frameNum` PCM frames of a block. -/
def scanFrame (channels : ℕ) (c : Chunk) (mono : Bool) : FrameScan :=
  (List.range c.frameNum).foldl (scanSample channels c.buffer)
    { mono := mono, peak := 0, gistFrame := [] }

/-- The scan of the magnitude spectrum from the highest bin down; `n` is the
number of bins still to inspect, so the bin looked at is `n - 1`.  The result is
`bestFreq`, which stays `0` when the loop runs out of bins. -/
noncomputable def findBestFreq (maxDb : ℝ) (sampleRate : ℕ) (mags : List ℚ) : ℕ → ℚ
  | 0 => 0
  | i + 1 =>
    if MagToDb (mags.getD i 0 + EPSILON) > (MINIMUM_DB : ℝ) ∧
        maxDb - MagToDb (mags.getD i 0 + EPSILON) < (CONTRAST_DB : ℝ)
    then (i : ℚ) * ((sampleRate : ℚ) / (FRAME_SIZE : ℚ))
    else findBestFreq maxDb sampleRate mags i

/-- The zero fill of the part of `gistFrame` past the `frameNum` samples of a
short block. -/
def padFrame (frameNum : ℕ) (gistFrame : List ℚ) : List ℚ :=
  if frameNum < FRAME_SIZE then gistFrame ++ List.replicate (FRAME_SIZE - frameNum) 0
  else gistFrame

/-- Body of the second `while` loop for one block. -/
noncomputable def analyzeFrame (channels sampleRate : ℕ) (spectrum : List ℚ → List ℚ)
    (maxDb : ℝ) (st : AnalysisState) (c : Chunk) : AnalysisState :=
  let scan := scanFrame channels c st.mono
  let peakDb := MagToDb (scan.peak + EPSILON)
  let firstFrame :=
    if peakDb > (MINIMUM_DB : ℝ) then
      (if st.foundStart then st.firstFrame else st.currentFrame)
    else st.firstFrame
  let foundStart := if peakDb > (MINIMUM_DB : ℝ) then true else st.foundStart
  let lastFrame :=
    if peakDb > (MINIMUM_DB : ℝ) then st.currentFrame + c.frameNum else st.lastFrame
  let mags := spectrum (padFrame c.frameNum scan.gistFrame)
  let bestFreq := findBestFreq maxDb sampleRate mags mags.length
  { firstFrame := firstFrame
    lastFrame := lastFrame
    currentFrame := st.currentFrame + c.frameNum
    foundStart := foundStart
    mono := scan.mono
    frameFreqs := if bestFreq > 0 then st.frameFreqs ++ [bestFreq] else st.frameFreqs }

/-- The second `while` loop: it reads blocks until one comes back empty. -/
noncomputable def secondPass (channels sampleRate : ℕ) (spectrum : List ℚ → List ℚ)
    (maxDb : ℝ) : AnalysisState → List Chunk → AnalysisState
  | st, [] => st
  | st, c :: cs =>
    if c.frameNum > 0 then
      secondPass channels sampleRate spectrum maxDb
        (analyzeFrame channels sampleRate spectrum maxDb st c) cs
    else st

/-! ## Gain -/

/-- Result of the volume check: the gain, the value `maxDb` holds afterwards and
the warning appended, if any. -/
structure GainResult where
  gain : ℝ
  maxDb : ℝ
  warnings : List Warning

/-- The volume check of `ProcessFile`. -/
noncomputable def gainStep (maxDb : ℝ) : GainResult :=
  if maxDb ≥ (LIMIT_DB : ℝ) then
    { gain := (10 : ℝ) ^ (((LIMIT_DB : ℝ) - maxDb) / 20)
      maxDb := (LIMIT_DB : ℝ)
      warnings := [Warning.saturated maxDb] }
  else if maxDb < (MINIMUM_DB : ℝ) then
    { gain := (10 : ℝ) ^ (((MINIMUM_DB : ℝ) - maxDb) / 20)
      maxDb := (MINIMUM_DB : ℝ)
      warnings := [Warning.lowVolume maxDb] }
  else { gain := 1, maxDb := maxDb, warnings := [] }

/-! ## Bandwidth and sample rate -/

/-- The index `static_cast<size_t>(frameFreqs.size() * 0.95f)`. -/
def percentileIndex (n : ℕ) : ℕ := ⌊(n : ℚ) * (95 / 100)⌋₊

/-- The representative bandwidth `maxFreq`: `0` for an empty list, otherwise the
element at the percentile index of the list sorted ascending. -/
def maxFreqOf (frameFreqs : List ℚ) : ℚ :=
  if frameFreqs.isEmpty then 0
  else (frameFreqs.insertionSort (· ≤ ·)).getD (percentileIndex frameFreqs.length) 0

/-- The conversion `static_cast<int>` of a number: truncation toward zero.  (C++
leaves the conversion undefined outside the range of `int`; the statements below
that depend on its value stay inside that range.) -/
def toInt (x : ℚ) : ℤ := if 0 ≤ x then ⌊x⌋ else ⌈x⌉

/-- The search `std::lower_bound`: the first element not less than `value`. -/
def lowerBound (xs : List ℤ) (value : ℤ) : Option ℤ :=
  xs.find? (fun r => decide (¬ r < value))

/-- The quantization of the truncated target to the ladder. -/
def quantize (value : ℤ) : ℤ :=
  match lowerBound sampleRates value with
  | none => sampleRates.getLastD 0
  | some r => r

/-- The export sample rate computed from the representative bandwidth. -/
def exportSampleRate (maxFreq : ℚ) : ℤ :=
  quantize (toInt (maxFreq * 2 * FREQ_MARGIN))

/-! ## The analysis as a whole -/

/-- The analysis of `ProcessFile` for a decoded stream, up to the export record. -/
noncomputable def ProcessFile (channels sampleRate : ℕ) (spectrum : List ℚ → List ℚ)
    (stream : List Chunk) : Outcome :=
  let maxDb := MagToDb (firstPass channels 0 stream)
  let st := secondPass channels sampleRate spectrum maxDb initState stream
  let w1 := if st.mono then [Warning.monoConverted] else []
  if !st.foundStart then
    { warnings := w1, errors := [Error.belowThreshold], result := none }
  else
    let w2 :=
      if st.firstFrame > 0 then
        w1 ++ [Warning.trimmed ((st.firstFrame : ℚ) / sampleRate)
          ((st.currentFrame : ℚ) / sampleRate - (st.lastFrame : ℚ) / sampleRate)]
      else w1
    let g := gainStep maxDb
    let w3 := w2 ++ g.warnings
    let maxFreq := maxFreqOf st.frameFreqs
    if maxFreq < 10 ∨ (sampleRate : ℚ) < 10 then
      { warnings := w3, errors := [Error.corrupt maxFreq sampleRate], result := none }
    else
      { warnings := w3, errors := []
        result := some
          { sampleRate := exportSampleRate maxFreq, mono := st.mono, gain := g.gain
            start := st.firstFrame, end_ := st.lastFrame } }

/-! ## Specification vocabulary -/

/-- The block is active: its level `MagToDb(peak + EPSILON)` is above the
silence floor. -/
def Active (channels : ℕ) (c : Chunk) : Prop :=
  MagToDb ((scanFrame channels c true).peak + EPSILON) > (MINIMUM_DB : ℝ)

/-- The number of PCM frames in a list of blocks: the offset at which the next
block starts. -/
def offset (cs : List Chunk) : ℕ := (cs.map Chunk.frameNum).sum

/-- The spectrum bin of magnitude `m` passes both tests of the scan for the
dominant frequency. -/
def Qualifies (maxDb : ℝ) (m : ℚ) : Prop :=
  MagToDb (m + EPSILON) > (MINIMUM_DB : ℝ) ∧
    maxDb - MagToDb (m + EPSILON) < (CONTRAST_DB : ℝ)

/-- The magnitude spectrum `mags` the second pass obtains for a block. -/
def frameMags (channels : ℕ) (spectrum : List ℚ → List ℚ) (mono : Bool) (c : Chunk) :
    List ℚ :=
  spectrum (padFrame c.frameNum (scanFrame channels c mono).gistFrame)

/-- The sample pair at PCM frame `i` of the buffer differs by more than
`EPSILON`. -/
def PairDiffers (channels : ℕ) (buffer : List ℚ) (i : ℕ) : Prop :=
  |buffer.getD (i * channels) 0 - buffer.getD (i * channels + 1) 0| > EPSILON

/-- The ladder value `r` is the smallest one that is at least `t`. -/
def IsSmallestLadderAtLeast (t : ℚ) (r : ℤ) : Prop :=
  r ∈ sampleRates ∧ t ≤ (r : ℚ) ∧ ∀ s ∈ sampleRates, t ≤ (s : ℚ) → r ≤ s

/-- The state in which the second pass of `ProcessFile` ends. -/
noncomputable def finalState (channels sampleRate : ℕ) (spectrum : List ℚ → List ℚ)
    (stream : List Chunk) : AnalysisState :=
  secondPass channels sampleRate spectrum (MagToDb (firstPass channels 0 stream))
    initState stream

/-- The invariant of the second pass on the trim markers. -/
def MarkersOrdered (st : AnalysisState) : Prop :=
  st.foundStart = true → st.firstFrame ≤ st.lastFrame ∧ st.lastFrame ≤ st.currentFrame

/-! ## The arithmetic of the program

The definitions above compute with exact rationals and reals.  The namespace
`Binary32` embeds the same loops with the arithmetic the program performs: every
`float` operation is the exact operation followed by rounding to the nearest
binary32 value, ties to even (24-bit significand, minimum exponent -126; overflow
to infinity and NaN are not modelled).  The library function `log10f` is a
parameter `flog10`, about which nothing is assumed. -/

namespace Binary32

/-- Rounding to the nearest integer, ties to even. -/
def roundHalfEven (y : ℚ) : ℤ :=
  if Int.fract y < 1 / 2 then ⌊y⌋
  else if 1 / 2 < Int.fract y then ⌊y⌋ + 1
  else if ⌊y⌋ % 2 = 0 then ⌊y⌋ else ⌊y⌋ + 1

/-- Exponent of the unit in the last place of the binary32 values around `x`. -/
def ulpExp (x : ℚ) : ℤ := max (Int.log 2 |x|) (-126) - 23

/-- Rounding to the nearest binary32 value, ties to even: the result of a
conversion to `float` and of every `float` operation on the exact result. -/
def rnd (x : ℚ) : ℚ := (roundHalfEven (x / 2 ^ ulpExp x) : ℚ) * 2 ^ ulpExp x

/-- Sum of two binary32 values. -/
def fadd (a b : ℚ) : ℚ := rnd (a + b)

/-- Difference of two binary32 values. -/
def fsub (a b : ℚ) : ℚ := rnd (a - b)

/-- Product of two binary32 values. -/
def fmul (a b : ℚ) : ℚ := rnd (a * b)

/-- Quotient of two binary32 values. -/
def fdiv (a b : ℚ) : ℚ := rnd (a / b)

/-- The constant `1e-9f`: the binary32 value nearest to `1e-9`. -/
def EPSILON : ℚ := 9007199 / 2 ^ 53

/-- The literal `0.95f`: the binary32 value nearest to `0.95`. -/
def P95 : ℚ := 15938355 / 2 ^ 24

/-- Linear magnitude to decibels, `20.0f * std::log10(mag + EPSILON)`, for the
library function `log10f` given as `flog10`. -/
def MagToDb (flog10 : ℚ → ℚ) (mag : ℚ) : ℚ :=
  fmul 20 (flog10 (fadd mag EPSILON))

/-- One iteration of the inner `for` loop, at PCM frame `i` of the block. -/
def scanSample (channels : ℕ) (buffer : List ℚ) (s : FrameScan) (i : ℕ) : FrameScan :=
  let mono :=
    if channels ≥ 2 ∧
        |fsub (buffer.getD (i * channels) 0) (buffer.getD (i * channels + 1) 0)| > EPSILON
    then false else s.mono
  let sample :=
    if channels ≥ 2 then
      fdiv (fadd (buffer.getD (i * channels) 0) (buffer.getD (i * channels + 1) 0)) 2
    else buffer.getD i 0
  { mono := mono
    peak := if |sample| > s.peak then |sample| else s.peak
    gistFrame := s.gistFrame ++ [sample] }

/-- The inner `for` loop over the `frameNum` PCM frames of a block. -/
def scanFrame (channels : ℕ) (c : Chunk) (mono : Bool) : FrameScan :=
  (List.range c.frameNum).foldl (scanSample channels c.buffer)
    { mono := mono, peak := 0, gistFrame := [] }

/-- The scan of the magnitude spectrum from the highest bin down; `n` is the
number of bins still to inspect, so the bin looked at is `n - 1`.  The result is
`bestFreq`, which stays `0` when the loop runs out of bins. -/
def findBestFreq (flog10 : ℚ → ℚ) (maxDb : ℚ) (sampleRate : ℕ) (mags : List ℚ) : ℕ → ℚ
  | 0 => 0
  | i + 1 =>
    if MagToDb flog10 (fadd (mags.getD i 0) EPSILON) > MINIMUM_DB ∧
        fsub maxDb (MagToDb flog10 (fadd (mags.getD i 0) EPSILON)) < CONTRAST_DB
    then fmul (rnd (i : ℚ)) (fdiv (rnd (sampleRate : ℚ)) (FRAME_SIZE : ℚ))
    else findBestFreq flog10 maxDb sampleRate mags i

/-- Body of the second `while` loop for one block. -/
def analyzeFrame (flog10 : ℚ → ℚ) (channels sampleRate : ℕ) (spectrum : List ℚ → List ℚ)
    (maxDb : ℚ) (st : AnalysisState) (c : Chunk) : AnalysisState :=
  let scan := scanFrame channels c st.mono
  let peakDb := MagToDb flog10 (fadd scan.peak EPSILON)
  let firstFrame :=
    if peakDb > MINIMUM_DB then
      (if st.foundStart then st.firstFrame else st.currentFrame)
    else st.firstFrame
  let foundStart := if peakDb > MINIMUM_DB then true else st.foundStart
  let lastFrame :=
    if peakDb > MINIMUM_DB then st.currentFrame + c.frameNum else st.lastFrame
  let mags := spectrum (padFrame c.frameNum scan.gistFrame)
  let bestFreq := findBestFreq flog10 maxDb sampleRate mags mags.length
  { firstFrame := firstFrame
    lastFrame := lastFrame
    currentFrame := st.currentFrame + c.frameNum
    foundStart := foundStart
    mono := scan.mono
    frameFreqs := if bestFreq > 0 then st.frameFreqs ++ [bestFreq] else st.frameFreqs }

/-- The second `while` loop: it reads blocks until one comes back empty. -/
def secondPass (flog10 : ℚ → ℚ) (channels sampleRate : ℕ) (spectrum : List ℚ → List ℚ)
    (maxDb : ℚ) : AnalysisState → List Chunk → AnalysisState
  | st, [] => st
  | st, c :: cs =>
    if c.frameNum > 0 then
      secondPass flog10 channels sampleRate spectrum maxDb
        (analyzeFrame flog10 channels sampleRate spectrum maxDb st c) cs
    else st

/-- The index `static_cast<size_t>(frameFreqs.size() * 0.95f)`: the size is
converted to binary32, multiplied by `0.95f` and the product truncated. -/
def percentileIndex (n : ℕ) : ℕ := ⌊fmul (rnd (n : ℚ)) P95⌋₊

/-- The representative bandwidth `maxFreq`: `0` for an empty list, otherwise the
element at the percentile index of the list sorted ascending. -/
def maxFreqOf (frameFreqs : List ℚ) : ℚ :=
  if frameFreqs.isEmpty then 0
  else (frameFreqs.insertionSort (· ≤ ·)).getD (percentileIndex frameFreqs.length) 0

/-- The block is active: the level the program computes for it is above the
silence floor. -/
def Active (flog10 : ℚ → ℚ) (channels : ℕ) (c : Chunk) : Prop :=
  MagToDb flog10 (fadd (scanFrame channels c true).peak EPSILON) > MINIMUM_DB

/-- The spectrum bin of magnitude `m` passes both tests of the scan for the
dominant frequency, as the program evaluates them. -/
def Qualifies (flog10 : ℚ → ℚ) (maxDb : ℚ) (m : ℚ) : Prop :=
  MagToDb flog10 (fadd m EPSILON) > MINIMUM_DB ∧
    fsub maxDb (MagToDb flog10 (fadd m EPSILON)) < CONTRAST_DB

/-- The magnitude spectrum `mags` the second pass obtains for a block. -/
def frameMags (channels : ℕ) (spectrum : List ℚ → List ℚ) (mono : Bool) (c : Chunk) :
    List ℚ :=
  spectrum (padFrame c.frameNum (scanFrame channels c mono).gistFrame)

/-- A stand-in for the library's `log10f` in examples: `floor(log10 x)`, exact at
the powers of ten. -/
def log10Floor (x : ℚ) : ℚ := (Int.log 10 x : ℤ)

/-- The sample pair at PCM frame `i` of the buffer differs, in binary32, by more
than `EPSILON`. -/
def PairDiffers (channels : ℕ) (buffer : List ℚ) (i : ℕ) : Prop :=
  |fsub (buffer.getD (i * channels) 0) (buffer.getD (i * channels + 1) 0)| > EPSILON

end Binary32

/-! ## Quantization to the ladder -/

theorem quantize_eq (v : ℤ) :
    quantize v =
      if v ≤ 8000 then 8000 else if v ≤ 11025 then 11025 else if v ≤ 16000 then 16000
      else if v ≤ 24000 then 24000 else if v ≤ 32000 then 32000 else 44100 := by
  unfold quantize lowerBound sampleRates
  split_ifs <;> simp [List.find?, *]
  by_cases h : v ≤ 44100 <;> simp [h]

theorem quantize_mem (v : ℤ) : quantize v ∈ sampleRates := by
  rw [quantize_eq]
  unfold sampleRates
  split_ifs <;> simp

theorem toInt_of_nonneg {x : ℚ} (h : 0 ≤ x) : toInt x = ⌊x⌋ := by
  simp [toInt, h]

theorem quantize_smallest (v : ℤ) (hv : v ≤ 44100) :
    IsSmallestLadderAtLeast (v : ℚ) (quantize v) := by
  refine ⟨quantize_mem v, ?_, ?_⟩
  · rw [quantize_eq]
    split_ifs <;> norm_cast
  · intro s hs hle
    have hle' : v ≤ s := by exact_mod_cast hle
    rw [quantize_eq]
    simp only [sampleRates, List.mem_cons, List.mem_singleton, List.not_mem_nil, or_false] at hs
    split_ifs <;> omega

theorem quantize_of_large (v : ℤ) (hv : 44100 ≤ v) : quantize v = 44100 := by
  rw [quantize_eq]
  split_ifs <;> omega


/-! ## The shape of the outcome -/

theorem ProcessFile_of_not_foundStart (channels sampleRate : ℕ)
    (spectrum : List ℚ → List ℚ) (stream : List Chunk)
    (h : (finalState channels sampleRate spectrum stream).foundStart = false) :
    ProcessFile channels sampleRate spectrum stream =
      { warnings :=
          if (finalState channels sampleRate spectrum stream).mono
          then [Warning.monoConverted] else []
        errors := [Error.belowThreshold]
        result := none } := by
  unfold finalState at h
  unfold ProcessFile finalState
  simp [h]

theorem ProcessFile_result (channels sampleRate : ℕ)
    (spectrum : List ℚ → List ℚ) (stream : List Chunk) :
    (ProcessFile channels sampleRate spectrum stream).result =
      if (finalState channels sampleRate spectrum stream).foundStart = true ∧
          ¬ (maxFreqOf (finalState channels sampleRate spectrum stream).frameFreqs < 10 ∨
            (sampleRate : ℚ) < 10)
      then some
        { sampleRate :=
            exportSampleRate
              (maxFreqOf (finalState channels sampleRate spectrum stream).frameFreqs)
          mono := (finalState channels sampleRate spectrum stream).mono
          gain := (gainStep (MagToDb (firstPass channels 0 stream))).gain
          start := (finalState channels sampleRate spectrum stream).firstFrame
          end_ := (finalState channels sampleRate spectrum stream).lastFrame }
      else none := by
  unfold ProcessFile finalState
  simp only
  split_ifs <;> simp_all

/-! ## Claims on the sample-rate selection -/

/-- C1 (as stated, refuted): at `maxFreq = 222625/64` (bin 100 of a 35620 Hz
stream) the exact target is `8000 + 75/128`; the code truncates it to `8000` and
selects `8000`, which is below the target, so the selected rate is not the
smallest ladder value that is at least the target (that one is `11025`). -/
theorem exportSampleRate_below_target :
    (222625 / 64 : ℚ) * 2 * FREQ_MARGIN = 8000 + 75 / 128 ∧
    exportSampleRate (222625 / 64) = 8000 ∧
    IsSmallestLadderAtLeast ((222625 / 64 : ℚ) * 2 * FREQ_MARGIN) 11025 ∧
    ¬ IsSmallestLadderAtLeast ((222625 / 64 : ℚ) * 2 * FREQ_MARGIN)
        (exportSampleRate (222625 / 64)) := by
  have ht : (222625 / 64 : ℚ) * 2 * FREQ_MARGIN = 8000 + 75 / 128 := by
    norm_num [FREQ_MARGIN]
  have hfl : ⌊(8000 + 75 / 128 : ℚ)⌋ = 8000 := by
    rw [Int.floor_eq_iff]; norm_num
  have he : exportSampleRate (222625 / 64) = 8000 := by
    unfold exportSampleRate
    rw [ht, toInt_of_nonneg (by norm_num), hfl, quantize_eq]
    norm_num
  refine ⟨ht, he, ?_, ?_⟩
  · rw [ht]
    refine ⟨by simp [sampleRates], by norm_num, ?_⟩
    intro s hs hle
    simp only [sampleRates, List.mem_cons, List.mem_singleton, List.not_mem_nil, or_false] at hs
    rcases hs with rfl | rfl | rfl | rfl | rfl | rfl <;> norm_num at hle ⊢
  · rw [ht, he]
    rintro ⟨-, hle, -⟩
    norm_num at hle

/-- C1 (amended): for every representative bandwidth `maxFreq ≥ 0` whose exact
target `maxFreq * 2 * 1.15` is in the range of `int`, the selected sample rate is
the smallest ladder value that is at least the target truncated to an integer,
and it is `44100` when the target exceeds `44100`. -/
theorem exportSampleRate_smallest_above_truncated_target (maxFreq : ℚ)
    (h0 : 0 ≤ maxFreq) (_hr : maxFreq * 2 * FREQ_MARGIN < 2147483648) :
    (maxFreq * 2 * FREQ_MARGIN ≤ 44100 →
      IsSmallestLadderAtLeast ((⌊maxFreq * 2 * FREQ_MARGIN⌋ : ℤ) : ℚ)
        (exportSampleRate maxFreq)) ∧
    (44100 < maxFreq * 2 * FREQ_MARGIN → exportSampleRate maxFreq = 44100) := by
  have ht : 0 ≤ maxFreq * 2 * FREQ_MARGIN := by
    have : (0 : ℚ) ≤ FREQ_MARGIN := by norm_num [FREQ_MARGIN]
    positivity
  unfold exportSampleRate
  rw [toInt_of_nonneg ht]
  constructor
  · intro hle
    apply quantize_smallest
    have := Int.floor_le (maxFreq * 2 * FREQ_MARGIN)
    have h2 : ((⌊maxFreq * 2 * FREQ_MARGIN⌋ : ℤ) : ℚ) ≤ ((44100 : ℤ) : ℚ) := by
      push_cast; linarith
    exact_mod_cast h2
  · intro hgt
    apply quantize_of_large
    rw [Int.le_floor]
    push_cast; linarith

/-- Witness of C1 (amended): `maxFreq = 5000` gives target `11500` and the
selected rate `16000`. -/
theorem exportSampleRate_5000 :
    (5000 : ℚ) * 2 * FREQ_MARGIN = 11500 ∧ exportSampleRate 5000 = 16000 ∧
    IsSmallestLadderAtLeast ((⌊(5000 : ℚ) * 2 * FREQ_MARGIN⌋ : ℤ) : ℚ)
      (exportSampleRate 5000) :=
  have ht : (5000 : ℚ) * 2 * FREQ_MARGIN = 11500 := by norm_num [FREQ_MARGIN]
  ⟨ht,
   by
    unfold exportSampleRate
    rw [ht, toInt_of_nonneg (by norm_num), quantize_eq]
    have : ⌊(11500 : ℚ)⌋ = 11500 := by
      rw [Int.floor_eq_iff]; norm_num
    rw [this]; norm_num,
   (exportSampleRate_smallest_above_truncated_target 5000 (by norm_num)
      (by rw [ht]; norm_num)).1 (by rw [ht]; norm_num)⟩

/-- C2: for every list of per-frame dominant frequencies, the empty one
included, the export sample rate computed from it is a member of the ladder;
so is the rate of every export record `ProcessFile` builds, whatever the stream,
the channel count, the input sample rate and the spectrum.  The quantization
lands on the ladder for every integer it is given, so the membership does not
depend on what the conversion to `int` yields. -/
theorem exportSampleRate_mem_ladder :
    (∀ v : ℤ, quantize v ∈ sampleRates) ∧
    (∀ frameFreqs : List ℚ, exportSampleRate (maxFreqOf frameFreqs) ∈ sampleRates) ∧
    (∀ (channels sampleRate : ℕ) (spectrum : List ℚ → List ℚ) (stream : List Chunk)
        (e : AudioExport),
      (ProcessFile channels sampleRate spectrum stream).result = some e →
        e.sampleRate ∈ sampleRates) := by
  refine ⟨quantize_mem, fun _ => quantize_mem _, ?_⟩
  intro channels sampleRate spectrum stream e h
  rw [ProcessFile_result] at h
  split_ifs at h
  · simp only [Option.some.injEq] at h
    subst h
    exact quantize_mem _

/-! ## The percentile index -/

theorem percentileIndex_small {n : ℕ} (h1 : 1 ≤ n) (h20 : n ≤ 20) :
    percentileIndex n = n - 1 := by
  unfold percentileIndex
  rw [Nat.floor_eq_iff (by positivity)]
  have a : (1 : ℚ) ≤ n := by exact_mod_cast h1
  have b : (n : ℚ) ≤ 20 := by exact_mod_cast h20
  have c : ((n - 1 : ℕ) : ℚ) = (n : ℚ) - 1 := by
    rw [Nat.cast_sub h1]; simp
  rw [c]
  constructor <;> linarith

/-! ## The gain -/

theorem logb_ten_rpow (x : ℝ) : Real.logb 10 ((10 : ℝ) ^ x) = x :=
  Real.logb_rpow (by norm_num) (by norm_num)

/-- C5: for every global peak level `peakDb` the gain chosen by the volume check
is strictly positive and the adjusted peak `peakDb + 20 * log10 gain` equals
`min (max peakDb (-50)) (-6)`: it is `-6` with gain `10 ^ ((-6 - peakDb) / 20)`
when `peakDb ≥ -6`, `-50` with gain `10 ^ ((-50 - peakDb) / 20)` when
`peakDb < -50`, and `peakDb` with gain `1` otherwise.  The value `maxDb` holds
after the check is that adjusted peak.  At `peakDb = -3` the gain is
`10 ^ (-3 / 20)` and the adjusted peak `-6`. -/
theorem gainStep_adjusted_peak :
    (∀ peakDb : ℝ,
      0 < (gainStep peakDb).gain ∧
      peakDb + 20 * Real.logb 10 (gainStep peakDb).gain = min (max peakDb (-50)) (-6) ∧
      (gainStep peakDb).maxDb = min (max peakDb (-50)) (-6) ∧
      (-6 ≤ peakDb → (gainStep peakDb).gain = (10 : ℝ) ^ ((-6 - peakDb) / 20)) ∧
      (peakDb < -50 → (gainStep peakDb).gain = (10 : ℝ) ^ ((-50 - peakDb) / 20)) ∧
      (-50 ≤ peakDb → peakDb < -6 → (gainStep peakDb).gain = 1)) ∧
    (gainStep (-3)).gain = (10 : ℝ) ^ ((-3 : ℝ) / 20) ∧
    (-3 : ℝ) + 20 * Real.logb 10 (gainStep (-3)).gain = -6 := by
  have key : ∀ peakDb : ℝ,
      0 < (gainStep peakDb).gain ∧
      peakDb + 20 * Real.logb 10 (gainStep peakDb).gain = min (max peakDb (-50)) (-6) ∧
      (gainStep peakDb).maxDb = min (max peakDb (-50)) (-6) ∧
      (-6 ≤ peakDb → (gainStep peakDb).gain = (10 : ℝ) ^ ((-6 - peakDb) / 20)) ∧
      (peakDb < -50 → (gainStep peakDb).gain = (10 : ℝ) ^ ((-50 - peakDb) / 20)) ∧
      (-50 ≤ peakDb → peakDb < -6 → (gainStep peakDb).gain = 1) := by
    intro peakDb
    have hL : ((LIMIT_DB : ℚ) : ℝ) = -6 := by norm_num [LIMIT_DB]
    have hM : ((MINIMUM_DB : ℚ) : ℝ) = -50 := by norm_num [MINIMUM_DB]
    unfold gainStep
    rw [hL, hM]
    by_cases h1 : peakDb ≥ -6
    · have hmax : max peakDb (-50) = peakDb := max_eq_left (by linarith)
      have hmin : min peakDb (-6 : ℝ) = -6 := min_eq_right h1
      simp only [h1, if_true, hmax, hmin, logb_ten_rpow]
      refine ⟨by positivity, by ring, trivial, fun _ => trivial, ?_, ?_⟩
      · intro h; first | exact False.elim h | (exfalso; linarith)
      · intro h h'; first | exact False.elim h | exact False.elim h' | (exfalso; linarith)
    · have h1' : peakDb < -6 := lt_of_not_ge h1
      by_cases h2 : peakDb < -50
      · have hmax : max peakDb (-50) = -50 := max_eq_right (le_of_lt h2)
        have hmin : min (-50 : ℝ) (-6) = -50 := min_eq_left (by norm_num)
        simp only [h1, h2, if_true, if_false, hmax, hmin, logb_ten_rpow]
        refine ⟨by positivity, by ring, trivial, ?_, fun _ => trivial, ?_⟩
        · intro h; exact False.elim h
        · intro h; first | exact False.elim h | (exfalso; linarith)
      · have h2' : -50 ≤ peakDb := le_of_not_gt h2
        have hmax : max peakDb (-50) = peakDb := max_eq_left h2'
        have hmin : min peakDb (-6 : ℝ) = peakDb := min_eq_left (le_of_lt h1')
        simp only [h1, h2, if_false, hmax, hmin, Real.logb_one]
        refine ⟨by norm_num, by ring, trivial, ?_, ?_, fun _ _ => trivial⟩
        · intro h; exact False.elim h
        · intro h; exact False.elim h
  refine ⟨key, ?_, ?_⟩
  · have := (key (-3)).2.2.2.1 (by norm_num)
    rw [this]; norm_num
  · have := (key (-3)).2.1
    rw [this]
    rw [max_eq_left (by norm_num), min_eq_right (by norm_num)]

/-! ## The inner loop over one block -/

theorem foldl_scanSample_peak (channels : ℕ) (buffer : List ℚ) (l : List ℕ) :
    ∀ s s' : FrameScan, s.peak = s'.peak →
      (l.foldl (scanSample channels buffer) s).peak =
        (l.foldl (scanSample channels buffer) s').peak := by
  induction l with
  | nil => intro s s' h; simpa using h
  | cons i l ih =>
    intro s s' h
    simp only [List.foldl_cons]
    apply ih
    simp only [scanSample, h]

theorem scanFrame_peak (channels : ℕ) (c : Chunk) (m : Bool) :
    (scanFrame channels c m).peak = (scanFrame channels c true).peak :=
  foldl_scanSample_peak channels c.buffer _ _ _ rfl

theorem foldl_scanSample_mono_of_false (channels : ℕ) (buffer : List ℚ) (l : List ℕ) :
    ∀ s : FrameScan, s.mono = false →
      (l.foldl (scanSample channels buffer) s).mono = false := by
  induction l with
  | nil => intro s h; simpa using h
  | cons i l ih =>
    intro s h
    simp only [List.foldl_cons]
    apply ih
    simp only [scanSample, h]
    split_ifs <;> rfl

theorem foldl_scanSample_mono (channels : ℕ) (buffer : List ℚ) (l : List ℕ) :
    ∀ s : FrameScan, s.mono = true →
      ((l.foldl (scanSample channels buffer) s).mono = true ↔
        ∀ i ∈ l, ¬ (channels ≥ 2 ∧ PairDiffers channels buffer i)) := by
  induction l with
  | nil => intro s h; simpa using h
  | cons i l ih =>
    intro s h
    simp only [List.foldl_cons, List.mem_cons, forall_eq_or_imp]
    by_cases hd : channels ≥ 2 ∧ PairDiffers channels buffer i
    · have hm : (scanSample channels buffer s i).mono = false := by
        unfold PairDiffers at hd
        simp only [scanSample, hd, and_self, if_true]
      rw [foldl_scanSample_mono_of_false channels buffer l _ hm]
      simp only [Bool.false_eq_true, false_iff, not_and]
      intro h1
      exact absurd hd.2 (h1 hd.1)
    · have hm : (scanSample channels buffer s i).mono = true := by
        unfold PairDiffers at hd
        simp only [scanSample, hd, if_false, h]
      rw [ih _ hm]
      simp [hd]

theorem scanFrame_mono_true (channels : ℕ) (c : Chunk) :
    (scanFrame channels c true).mono = true ↔
      ∀ i < c.frameNum, ¬ (channels ≥ 2 ∧ PairDiffers channels c.buffer i) := by
  unfold scanFrame
  rw [foldl_scanSample_mono channels c.buffer _ _ rfl]
  simp [List.mem_range]

/-! ## One step of the second pass -/

theorem analyzeFrame_currentFrame (channels sampleRate : ℕ) (spectrum : List ℚ → List ℚ)
    (maxDb : ℝ) (st : AnalysisState) (c : Chunk) :
    (analyzeFrame channels sampleRate spectrum maxDb st c).currentFrame =
      st.currentFrame + c.frameNum := rfl

theorem analyzeFrame_mono (channels sampleRate : ℕ) (spectrum : List ℚ → List ℚ)
    (maxDb : ℝ) (st : AnalysisState) (c : Chunk) :
    (analyzeFrame channels sampleRate spectrum maxDb st c).mono =
      (scanFrame channels c st.mono).mono := rfl

theorem analyzeFrame_of_active (channels sampleRate : ℕ) (spectrum : List ℚ → List ℚ)
    (maxDb : ℝ) (st : AnalysisState) (c : Chunk) (h : Active channels c) :
    (analyzeFrame channels sampleRate spectrum maxDb st c).foundStart = true ∧
    (analyzeFrame channels sampleRate spectrum maxDb st c).firstFrame =
      (if st.foundStart then st.firstFrame else st.currentFrame) ∧
    (analyzeFrame channels sampleRate spectrum maxDb st c).lastFrame =
      st.currentFrame + c.frameNum := by
  unfold Active at h
  simp only [analyzeFrame, scanFrame_peak channels c st.mono, h, if_true, and_self]

theorem analyzeFrame_of_inactive (channels sampleRate : ℕ) (spectrum : List ℚ → List ℚ)
    (maxDb : ℝ) (st : AnalysisState) (c : Chunk) (h : ¬ Active channels c) :
    (analyzeFrame channels sampleRate spectrum maxDb st c).foundStart = st.foundStart ∧
    (analyzeFrame channels sampleRate spectrum maxDb st c).firstFrame = st.firstFrame ∧
    (analyzeFrame channels sampleRate spectrum maxDb st c).lastFrame = st.lastFrame := by
  unfold Active at h
  simp only [analyzeFrame, scanFrame_peak channels c st.mono, h, if_false, and_self]

theorem analyzeFrame_markersOrdered (channels sampleRate : ℕ)
    (spectrum : List ℚ → List ℚ) (maxDb : ℝ) (st : AnalysisState) (c : Chunk)
    (h : MarkersOrdered st) :
    MarkersOrdered (analyzeFrame channels sampleRate spectrum maxDb st c) := by
  intro hf
  rw [analyzeFrame_currentFrame]
  by_cases ha : Active channels c
  · obtain ⟨-, h2, h3⟩ := analyzeFrame_of_active channels sampleRate spectrum maxDb st c ha
    rw [h2, h3]
    by_cases hs : st.foundStart = true
    · have := h hs
      simp only [hs, if_true]
      omega
    · simp only [hs, Bool.false_eq_true, if_false]
      omega
  · obtain ⟨h1, h2, h3⟩ :=
      analyzeFrame_of_inactive channels sampleRate spectrum maxDb st c ha
    rw [h1] at hf
    rw [h2, h3]
    have := h hf
    omega

/-! ## The second pass over a stream -/

theorem secondPass_cons (channels sampleRate : ℕ) (spectrum : List ℚ → List ℚ)
    (maxDb : ℝ) (st : AnalysisState) (c : Chunk) (cs : List Chunk) (h : 0 < c.frameNum) :
    secondPass channels sampleRate spectrum maxDb st (c :: cs) =
      secondPass channels sampleRate spectrum maxDb
        (analyzeFrame channels sampleRate spectrum maxDb st c) cs := by
  simp [secondPass, h]

theorem secondPass_currentFrame (channels sampleRate : ℕ) (spectrum : List ℚ → List ℚ)
    (maxDb : ℝ) (a : List Chunk) (ha : ∀ c ∈ a, 0 < c.frameNum) :
    ∀ st : AnalysisState,
      (secondPass channels sampleRate spectrum maxDb st a).currentFrame =
        st.currentFrame + offset a := by
  induction a with
  | nil => intro st; simp [secondPass, offset]
  | cons c cs ih =>
    intro st
    have hc : 0 < c.frameNum := ha c (List.mem_cons_self _ _)
    rw [secondPass_cons _ _ _ _ _ _ _ hc, ih (fun x hx => ha x (List.mem_cons_of_mem _ hx)),
      analyzeFrame_currentFrame]
    simp only [offset, List.map_cons, List.sum_cons]
    omega

theorem secondPass_markersOrdered (channels sampleRate : ℕ) (spectrum : List ℚ → List ℚ)
    (maxDb : ℝ) (a : List Chunk) :
    ∀ st : AnalysisState, MarkersOrdered st →
      MarkersOrdered (secondPass channels sampleRate spectrum maxDb st a) := by
  induction a with
  | nil => intro st h; exact h
  | cons c cs ih =>
    intro st h
    unfold secondPass
    split_ifs
    · exact ih _ (analyzeFrame_markersOrdered channels sampleRate spectrum maxDb st c h)
    · exact h

theorem secondPass_of_inactive (channels sampleRate : ℕ) (spectrum : List ℚ → List ℚ)
    (maxDb : ℝ) (a : List Chunk) (ha : ∀ c ∈ a, ¬ Active channels c) :
    ∀ st : AnalysisState,
      (secondPass channels sampleRate spectrum maxDb st a).foundStart = st.foundStart ∧
      (secondPass channels sampleRate spectrum maxDb st a).firstFrame = st.firstFrame ∧
      (secondPass channels sampleRate spectrum maxDb st a).lastFrame = st.lastFrame := by
  induction a with
  | nil => intro st; exact ⟨rfl, rfl, rfl⟩
  | cons c cs ih =>
    intro st
    unfold secondPass
    split_ifs
    · obtain ⟨h1, h2, h3⟩ := ih (fun x hx => ha x (List.mem_cons_of_mem _ hx))
        (analyzeFrame channels sampleRate spectrum maxDb st c)
      obtain ⟨g1, g2, g3⟩ := analyzeFrame_of_inactive channels sampleRate spectrum maxDb
        st c (ha c (List.mem_cons_self _ _))
      exact ⟨h1.trans g1, h2.trans g2, h3.trans g3⟩
    · exact ⟨rfl, rfl, rfl⟩

theorem initState_markersOrdered : MarkersOrdered initState := by
  intro h
  simp [initState] at h

theorem secondPass_mono_of_equal (channels sampleRate : ℕ) (spectrum : List ℚ → List ℚ)
    (maxDb : ℝ) (a : List Chunk)
    (ha : ∀ c ∈ a, ∀ i < c.frameNum, ¬ (channels ≥ 2 ∧ PairDiffers channels c.buffer i)) :
    ∀ st : AnalysisState, st.mono = true →
      (secondPass channels sampleRate spectrum maxDb st a).mono = true := by
  induction a with
  | nil => intro st h; exact h
  | cons c cs ih =>
    intro st h
    unfold secondPass
    split_ifs
    · apply ih (fun x hx => ha x (List.mem_cons_of_mem _ hx))
      rw [analyzeFrame_mono, h]
      exact (scanFrame_mono_true channels c).mpr (ha c (List.mem_cons_self _ _))
    · exact h

/-! ## Position of the trim markers -/

theorem offset_append (a b : List Chunk) : offset (a ++ b) = offset a + offset b := by
  simp [offset]

theorem offset_cons (c : Chunk) (b : List Chunk) : offset (c :: b) = c.frameNum + offset b := by
  simp [offset]

/-! ## The silence floor in linear terms -/

theorem rpow_neg_five_halves_sq : ((10 : ℝ) ^ (-(5 / 2) : ℝ)) ^ 2 = 1 / 100000 := by
  rw [← Real.rpow_natCast, ← Real.rpow_mul (by norm_num)]
  have : (-(5 / 2) : ℝ) * ((2 : ℕ) : ℝ) = ((-5 : ℤ) : ℝ) := by norm_num
  rw [this, Real.rpow_intCast]
  norm_num

theorem MagToDb_gt_iff (x : ℚ) (hx : 0 < x + EPSILON) :
    MagToDb x > (MINIMUM_DB : ℝ) ↔ 1 / 100000 < (x + EPSILON) ^ 2 := by
  have hy : (0 : ℝ) < ((x + EPSILON : ℚ) : ℝ) := by exact_mod_cast hx
  have hM : ((MINIMUM_DB : ℚ) : ℝ) = 20 * (-(5 / 2)) := by norm_num [MINIMUM_DB]
  have hp : (0 : ℝ) < (10 : ℝ) ^ (-(5 / 2) : ℝ) := by positivity
  have hc : (1 : ℝ) / 100000 = ((1 / 100000 : ℚ) : ℝ) := by norm_num
  unfold MagToDb
  rw [hM, gt_iff_lt, mul_lt_mul_left (by norm_num : (0 : ℝ) < 20),
    Real.lt_logb_iff_rpow_lt (by norm_num) hy,
    ← pow_lt_pow_iff_left₀ hp.le hy.le (by norm_num : (2 : ℕ) ≠ 0), rpow_neg_five_halves_sq,
    hc, ← Rat.cast_pow, Rat.cast_lt]

theorem MagToDb_pos (x : ℚ) (hx : 1 ≤ x) : 0 < MagToDb x := by
  unfold MagToDb
  have : (1 : ℝ) < ((x + EPSILON : ℚ) : ℝ) := by
    have h : (1 : ℚ) < x + EPSILON := by
      have : (0 : ℚ) < EPSILON := by norm_num [EPSILON]
      linarith
    exact_mod_cast h
  have := Real.logb_pos (by norm_num : (1 : ℝ) < 10) this
  positivity

theorem foldl_scanSample_peak_nonneg (channels : ℕ) (buffer : List ℚ) (l : List ℕ) :
    ∀ s : FrameScan, 0 ≤ s.peak → 0 ≤ (l.foldl (scanSample channels buffer) s).peak := by
  induction l with
  | nil => intro s h; simpa using h
  | cons i l ih =>
    intro s h
    simp only [List.foldl_cons]
    apply ih
    simp only [scanSample]
    split_ifs <;> first | exact abs_nonneg _ | exact h

theorem foldl_scanSample_peak_le (channels : ℕ) (buffer : List ℚ) (B : ℚ) (l : List ℕ)
    (hl : ∀ i ∈ l,
      |if channels ≥ 2 then
          (buffer.getD (i * channels) 0 + buffer.getD (i * channels + 1) 0) / 2
        else buffer.getD i 0| ≤ B) :
    ∀ s : FrameScan, s.peak ≤ B → (l.foldl (scanSample channels buffer) s).peak ≤ B := by
  induction l with
  | nil => intro s h; simpa using h
  | cons i l ih =>
    intro s h
    simp only [List.foldl_cons]
    apply ih (fun j hj => hl j (List.mem_cons_of_mem _ hj))
    have hi := hl i (List.mem_cons_self _ _)
    simp only [scanSample]
    split_ifs with h1 h2 h2
    · simpa [h1] using hi
    · exact h
    · simpa [h1] using hi
    · exact h

theorem scanFrame_peak_nonneg (channels : ℕ) (c : Chunk) (m : Bool) :
    0 ≤ (scanFrame channels c m).peak :=
  foldl_scanSample_peak_nonneg channels c.buffer _ _ (le_refl _)

theorem scanFrame_peak_le (channels : ℕ) (c : Chunk) (m : Bool) (B : ℚ) (hB : 0 ≤ B)
    (hch : 1 ≤ channels)
    (h : ∀ i < c.frameNum * channels, |c.buffer.getD i 0| ≤ B) :
    (scanFrame channels c m).peak ≤ B := by
  apply foldl_scanSample_peak_le channels c.buffer B _ _ _ hB
  intro i hi
  rw [List.mem_range] at hi
  by_cases h2 : channels ≥ 2
  · simp only [h2, if_true]
    have e1 : i * channels < c.frameNum * channels :=
      Nat.mul_lt_mul_of_pos_right hi (by omega)
    have e2 : i * channels + 1 < c.frameNum * channels := by
      have : (i + 1) * channels ≤ c.frameNum * channels := Nat.mul_le_mul_right _ hi
      rw [Nat.add_mul, Nat.one_mul] at this
      omega
    have a1 := h _ e1
    have a2 := h _ e2
    rw [abs_le] at a1 a2 ⊢
    constructor <;> linarith [a1.1, a1.2, a2.1, a2.2]
  · simp only [h2, if_false]
    have : channels = 1 := by omega
    apply h
    rw [this, Nat.mul_one]
    exact hi

theorem not_active_of_small (channels : ℕ) (c : Chunk) (hch : 1 ≤ channels)
    (h : ∀ i < c.frameNum * channels, |c.buffer.getD i 0| ≤ 1 / 1000) :
    ¬ Active channels c := by
  have h0 := scanFrame_peak_nonneg channels c true
  have h1 := scanFrame_peak_le channels c true (1 / 1000) (by norm_num) hch h
  have he : EPSILON = 1 / 1000000000 := rfl
  unfold Active
  rw [MagToDb_gt_iff _ (by rw [he]; linarith), not_lt]
  have hb : (scanFrame channels c true).peak + EPSILON + EPSILON ≤ 2 / 1000 := by
    rw [he]; linarith
  have hn : 0 ≤ (scanFrame channels c true).peak + EPSILON + EPSILON := by
    rw [he]; linarith
  calc ((scanFrame channels c true).peak + EPSILON + EPSILON) ^ 2
      ≤ (2 / 1000) ^ 2 := pow_le_pow_left₀ hn hb 2
    _ ≤ 1 / 100000 := by norm_num

theorem ProcessFile_of_inactive (channels sampleRate : ℕ) (spectrum : List ℚ → List ℚ)
    (stream : List Chunk) (h : ∀ c ∈ stream, ¬ Active channels c) :
    ProcessFile channels sampleRate spectrum stream =
      { warnings :=
          if (finalState channels sampleRate spectrum stream).mono
          then [Warning.monoConverted] else []
        errors := [Error.belowThreshold]
        result := none } := by
  apply ProcessFile_of_not_foundStart
  exact (secondPass_of_inactive channels sampleRate spectrum _ stream h initState).1

/-! ## Claims on the second pass -/

/-- C9: for every stream of non-empty frames, after every frame of the second
pass `currentFrame` is the number of PCM frames consumed and, whenever
`foundStart` is set, `firstFrame ≤ lastFrame ≤ currentFrame`; so the range of
the export record has its end neither before its start nor past the frames
consumed. -/
theorem markers_ordered_after_every_frame (channels sampleRate : ℕ)
    (spectrum : List ℚ → List ℚ) (maxDb : ℝ) (stream : List Chunk)
    (hne : ∀ c ∈ stream, 0 < c.frameNum) :
    (∀ a b, stream = a ++ b →
      (secondPass channels sampleRate spectrum maxDb initState a).currentFrame = offset a ∧
      ((secondPass channels sampleRate spectrum maxDb initState a).foundStart = true →
        (secondPass channels sampleRate spectrum maxDb initState a).firstFrame ≤
          (secondPass channels sampleRate spectrum maxDb initState a).lastFrame ∧
        (secondPass channels sampleRate spectrum maxDb initState a).lastFrame ≤
          (secondPass channels sampleRate spectrum maxDb initState a).currentFrame)) ∧
    (∀ e, (ProcessFile channels sampleRate spectrum stream).result = some e →
      e.start ≤ e.end_ ∧ e.end_ ≤ offset stream) := by
  constructor
  · intro a b hs
    have ha : ∀ c ∈ a, 0 < c.frameNum := fun c hc => hne c (by rw [hs]; simp [hc])
    have hcur := secondPass_currentFrame channels sampleRate spectrum maxDb a ha initState
    have hz : initState.currentFrame = 0 := rfl
    rw [hz, Nat.zero_add] at hcur
    exact ⟨hcur, secondPass_markersOrdered channels sampleRate spectrum maxDb a initState
      initState_markersOrdered⟩
  · intro e he
    rw [ProcessFile_result] at he
    split_ifs at he with hc
    simp only [Option.some.injEq] at he
    subst he
    have hcur := secondPass_currentFrame channels sampleRate spectrum
      (MagToDb (firstPass channels 0 stream)) stream hne initState
    have hz : initState.currentFrame = 0 := rfl
    rw [hz, Nat.zero_add] at hcur
    have := secondPass_markersOrdered channels sampleRate spectrum
      (MagToDb (firstPass channels 0 stream)) stream initState initState_markersOrdered hc.1
    unfold finalState
    simp only
    omega

/-! ## Claims on rejection -/

theorem finalState_mono_of_equal (channels sampleRate : ℕ) (spectrum : List ℚ → List ℚ)
    (stream : List Chunk)
    (h : ∀ c ∈ stream, ∀ i < c.frameNum,
      ¬ (channels ≥ 2 ∧ PairDiffers channels c.buffer i)) :
    (finalState channels sampleRate spectrum stream).mono = true :=
  secondPass_mono_of_equal channels sampleRate spectrum _ stream h initState rfl

/-- C3 (as stated, refuted): for the stereo stream of two PCM frames whose
samples are all `0`, `ProcessFile` appends the 'below threshold' error and also
the mono-conversion warning, so the error is not the only diagnostic. -/
theorem silent_stream_gets_mono_warning :
    (ProcessFile 2 44100 (fun _ => []) [⟨2, [0, 0, 0, 0]⟩]).errors
      = [Error.belowThreshold] ∧
    (ProcessFile 2 44100 (fun _ => []) [⟨2, [0, 0, 0, 0]⟩]).warnings
      = [Warning.monoConverted] ∧
    (ProcessFile 2 44100 (fun _ => []) [⟨2, [0, 0, 0, 0]⟩]).warnings ≠ [] := by
  have hs : ∀ c ∈ [(⟨2, [0, 0, 0, 0]⟩ : Chunk)], ¬ Active 2 c := by
    intro c hc
    apply not_active_of_small 2 c (by norm_num)
    intro i _
    rw [List.mem_singleton] at hc
    subst hc
    rcases i with _ | _ | _ | _ | i <;> simp
  have hm : (finalState 2 44100 (fun _ => []) [⟨2, [0, 0, 0, 0]⟩]).mono = true := by
    apply finalState_mono_of_equal
    intro c hc i hi
    rw [List.mem_singleton] at hc
    subst hc
    simp only at hi
    rcases i with _ | _ | i
    · simp [PairDiffers, EPSILON]
    · simp [PairDiffers, EPSILON]
    · omega
  rw [ProcessFile_of_inactive 2 44100 _ _ hs, hm]
  simp

/-- C3 (amended): for every stream in which no frame exceeds the silence
threshold `ProcessFile` rejects the file, appends exactly one error, the 'below
threshold' one, and appends no warning except the mono-conversion warning, which
it appends exactly when the mono flag is still set at the end of the second
pass: always for a stream of fewer than two channels and for a stream whose
samples are all `0`. -/
theorem silent_stream_rejected (channels sampleRate : ℕ) (spectrum : List ℚ → List ℚ)
    (stream : List Chunk) (h : ∀ c ∈ stream, ¬ Active channels c) :
    (ProcessFile channels sampleRate spectrum stream).result = none ∧
    (ProcessFile channels sampleRate spectrum stream).errors = [Error.belowThreshold] ∧
    (ProcessFile channels sampleRate spectrum stream).warnings =
      (if (finalState channels sampleRate spectrum stream).mono
        then [Warning.monoConverted] else []) ∧
    (channels < 2 →
      (ProcessFile channels sampleRate spectrum stream).warnings = [Warning.monoConverted]) ∧
    ((∀ c ∈ stream, ∀ i, c.buffer.getD i 0 = 0) →
      (ProcessFile channels sampleRate spectrum stream).warnings = [Warning.monoConverted]) := by
  rw [ProcessFile_of_inactive channels sampleRate spectrum stream h]
  refine ⟨rfl, rfl, rfl, ?_, ?_⟩
  · intro hch
    have : (finalState channels sampleRate spectrum stream).mono = true := by
      apply finalState_mono_of_equal
      intro c _ i _ hd
      omega
    simp [this]
  · intro hz
    have : (finalState channels sampleRate spectrum stream).mono = true := by
      apply finalState_mono_of_equal
      intro c hc i _ hd
      have := hd.2
      unfold PairDiffers at this
      rw [hz c hc, hz c hc] at this
      norm_num [EPSILON] at this
    simp [this]

/-- Witness of C3 (amended): a mono stream of two silent blocks. -/
theorem silent_stream_rejected_example :
    (∀ c ∈ [(⟨2, [0, 1 / 2000]⟩ : Chunk), ⟨1, [-1 / 1000]⟩], ¬ Active 1 c) ∧
    (ProcessFile 1 44100 (fun _ => []) [⟨2, [0, 1 / 2000]⟩, ⟨1, [-1 / 1000]⟩]).result
      = none ∧
    (ProcessFile 1 44100 (fun _ => []) [⟨2, [0, 1 / 2000]⟩, ⟨1, [-1 / 1000]⟩]).errors
      = [Error.belowThreshold] ∧
    (ProcessFile 1 44100 (fun _ => []) [⟨2, [0, 1 / 2000]⟩, ⟨1, [-1 / 1000]⟩]).warnings
      = [Warning.monoConverted] := by
  have hs : ∀ c ∈ [(⟨2, [0, 1 / 2000]⟩ : Chunk), ⟨1, [-1 / 1000]⟩], ¬ Active 1 c := by
    intro c hc
    apply not_active_of_small 1 c (by norm_num)
    intro i _
    simp only [List.mem_cons, List.mem_singleton, List.not_mem_nil, or_false] at hc
    rcases hc with rfl | rfl
    · rcases i with _ | _ | i <;> norm_num [abs_le]
    · rcases i with _ | i <;> norm_num [abs_le]
  have h := silent_stream_rejected 1 44100 (fun _ => [])
    [⟨2, [0, 1 / 2000]⟩, ⟨1, [-1 / 1000]⟩] hs
  exact ⟨hs, h.1, h.2.1, h.2.2.2.1 (by norm_num)⟩

/-- C4 (as stated, refuted): the mono stream made of the single sample `0.001`
has maximum absolute sample value `0.001`, and `ProcessFile` produces no
decision for it: it is rejected with the 'below threshold' error. -/
theorem peak_minus_sixty_rejected :
    firstPass 1 0 [⟨1, [1 / 1000]⟩] = 1 / 1000 ∧
    (ProcessFile 1 44100 (fun _ => []) [⟨1, [1 / 1000]⟩]).result = none ∧
    (ProcessFile 1 44100 (fun _ => []) [⟨1, [1 / 1000]⟩]).errors
      = [Error.belowThreshold] := by
  have hs : ∀ c ∈ [(⟨1, [1 / 1000]⟩ : Chunk)], ¬ Active 1 c := by
    intro c hc
    apply not_active_of_small 1 c (by norm_num)
    intro i _
    rw [List.mem_singleton] at hc
    subst hc
    rcases i with _ | i <;> norm_num [abs_le]
  rw [ProcessFile_of_inactive 1 44100 _ _ hs]
  refine ⟨?_, rfl, rfl⟩
  norm_num [firstPass, peakOfChunk, List.range_succ]

/-- C4 (amended): for every stream whose samples all have absolute value at
most `0.001` (a true peak of -60 dB or less) no frame is active and
`ProcessFile` rejects the file with the 'below threshold' error, producing no
decision; the gain `10 ^ 0.5` is what the volume check yields for a peak level
of exactly -60 dB. -/
theorem quiet_stream_rejected (channels sampleRate : ℕ) (spectrum : List ℚ → List ℚ)
    (stream : List Chunk) (hch : 1 ≤ channels)
    (h : ∀ c ∈ stream, ∀ i < c.frameNum * channels, |c.buffer.getD i 0| ≤ 1 / 1000) :
    (∀ c ∈ stream, ¬ Active channels c) ∧
    (ProcessFile channels sampleRate spectrum stream).result = none ∧
    (ProcessFile channels sampleRate spectrum stream).errors = [Error.belowThreshold] ∧
    (gainStep (-60)).gain = (10 : ℝ) ^ ((1 : ℝ) / 2) := by
  have hs : ∀ c ∈ stream, ¬ Active channels c :=
    fun c hc => not_active_of_small channels c hch (h c hc)
  rw [ProcessFile_of_inactive channels sampleRate spectrum stream hs]
  refine ⟨hs, rfl, rfl, ?_⟩
  have hM : ((MINIMUM_DB : ℚ) : ℝ) = -50 := by norm_num [MINIMUM_DB]
  have hL : ((LIMIT_DB : ℚ) : ℝ) = -6 := by norm_num [LIMIT_DB]
  unfold gainStep
  rw [hM, hL]
  norm_num

/-- Witness of C4 (amended): a stereo stream whose peak is `0.001`. -/
theorem quiet_stream_rejected_example :
    firstPass 2 0 [⟨2, [1 / 1000, -1 / 1000, 0, 1 / 1000]⟩] = 1 / 1000 ∧
    (ProcessFile 2 48000 (fun _ => [1]) [⟨2, [1 / 1000, -1 / 1000, 0, 1 / 1000]⟩]).result
      = none := by
  have e1 : |(1 / 1000 : ℚ)| = 1 / 1000 := abs_of_pos (by norm_num)
  have e2 : |(-1 / 1000 : ℚ)| = 1 / 1000 := by
    rw [abs_of_neg (by norm_num)]; norm_num
  refine ⟨by norm_num [firstPass, peakOfChunk, List.range_succ, e1, e2], ?_⟩
  refine (quiet_stream_rejected 2 48000 (fun _ => [1])
    [⟨2, [1 / 1000, -1 / 1000, 0, 1 / 1000]⟩] (by norm_num) ?_).2.1
  intro c hc i _
  rw [List.mem_singleton] at hc
  subst hc
  rcases i with _ | _ | _ | _ | i <;> norm_num [abs_le]

/-! ## The dominant frequency of a frame -/

theorem findBestFreq_of_greatest (maxDb : ℝ) (sampleRate : ℕ) (mags : List ℚ) (i : ℕ)
    (hq : Qualifies maxDb (mags.getD i 0)) :
    ∀ n, i < n → (∀ j, i < j → j < n → ¬ Qualifies maxDb (mags.getD j 0)) →
      findBestFreq maxDb sampleRate mags n =
        (i : ℚ) * ((sampleRate : ℚ) / (FRAME_SIZE : ℚ)) := by
  intro n
  induction n with
  | zero => intro h; omega
  | succ n ih =>
    intro hi hj
    rcases Nat.lt_succ_iff_lt_or_eq.mp hi with hlt | heq
    · have hn := hj n hlt (Nat.lt_succ_self n)
      unfold Qualifies at hn
      rw [findBestFreq, if_neg hn]
      exact ih hlt (fun j h1 h2 => hj j h1 (Nat.lt_succ_of_lt h2))
    · subst heq
      unfold Qualifies at hq
      rw [findBestFreq, if_pos hq]

theorem analyzeFrame_frameFreqs (channels sampleRate : ℕ) (spectrum : List ℚ → List ℚ)
    (maxDb : ℝ) (st : AnalysisState) (c : Chunk) :
    (analyzeFrame channels sampleRate spectrum maxDb st c).frameFreqs =
      if findBestFreq maxDb sampleRate (frameMags channels spectrum st.mono c)
          (frameMags channels spectrum st.mono c).length > 0
      then st.frameFreqs ++
        [findBestFreq maxDb sampleRate (frameMags channels spectrum st.mono c)
          (frameMags channels spectrum st.mono c).length]
      else st.frameFreqs := rfl

/-! ## Concrete streams -/

theorem active_iff (channels : ℕ) (c : Chunk) :
    Active channels c ↔
      1 / 100000 < ((scanFrame channels c true).peak + EPSILON + EPSILON) ^ 2 := by
  have h0 := scanFrame_peak_nonneg channels c true
  have he : (0 : ℚ) < EPSILON := by norm_num [EPSILON]
  unfold Active
  rw [MagToDb_gt_iff _ (by linarith)]

/-- Witness of C9: after the first two blocks (2 + 2 PCM frames) of a stream of
three, `currentFrame` is 4 and the markers are ordered. -/
theorem markers_ordered_example :
    (secondPass 1 44100 (fun _ => []) 0 initState
      [⟨2, [0, 0]⟩, ⟨2, [1 / 2, 0]⟩]).currentFrame = 4 ∧
    ((secondPass 1 44100 (fun _ => []) 0 initState
        [⟨2, [0, 0]⟩, ⟨2, [1 / 2, 0]⟩]).foundStart = true →
      (secondPass 1 44100 (fun _ => []) 0 initState
          [⟨2, [0, 0]⟩, ⟨2, [1 / 2, 0]⟩]).firstFrame ≤
        (secondPass 1 44100 (fun _ => []) 0 initState
          [⟨2, [0, 0]⟩, ⟨2, [1 / 2, 0]⟩]).lastFrame ∧
      (secondPass 1 44100 (fun _ => []) 0 initState
          [⟨2, [0, 0]⟩, ⟨2, [1 / 2, 0]⟩]).lastFrame ≤
        (secondPass 1 44100 (fun _ => []) 0 initState
          [⟨2, [0, 0]⟩, ⟨2, [1 / 2, 0]⟩]).currentFrame) :=
  (markers_ordered_after_every_frame 1 44100 (fun _ => []) 0
    [⟨2, [0, 0]⟩, ⟨2, [1 / 2, 0]⟩, ⟨1, [0]⟩] (by simp)).1
    [⟨2, [0, 0]⟩, ⟨2, [1 / 2, 0]⟩] [⟨1, [0]⟩] rfl

theorem MagToDb_neg (x : ℚ) (h0 : 0 ≤ x) (h1 : x + EPSILON < 1) : MagToDb x < 0 := by
  unfold MagToDb
  have he : (0 : ℚ) < EPSILON := by norm_num [EPSILON]
  have hp : (0 : ℝ) < ((x + EPSILON : ℚ) : ℝ) := by
    have : (0 : ℚ) < x + EPSILON := by linarith
    exact_mod_cast this
  have hl : ((x + EPSILON : ℚ) : ℝ) < 1 := by exact_mod_cast h1
  have := Real.logb_neg (by norm_num : (1 : ℝ) < 10) hp hl
  linarith

/-- An accepted stream: one mono block holding the sample `1/2`, read at
44100 Hz, whose spectrum has its energy in bin 1.  The frame is active, its
dominant frequency is `44100 / 1024`, and the export record covers the PCM frame
range `[0, 1)` at the lowest ladder rate. -/
theorem ProcessFile_accepts_example :
    ∃ e, (ProcessFile 1 44100 (fun _ => [0, 1]) [⟨1, [1 / 2]⟩]).result = some e ∧
      e.sampleRate = 8000 ∧ e.mono = true ∧ e.start = 0 ∧ e.end_ = 1 := by
  have e1 : |(1 / 2 : ℚ)| = 1 / 2 := abs_of_pos (by norm_num)
  have hM : ((MINIMUM_DB : ℚ) : ℝ) = -50 := by norm_num [MINIMUM_DB]
  have hC : ((CONTRAST_DB : ℚ) : ℝ) = 15 := by norm_num [CONTRAST_DB]
  have hpk : firstPass 1 0 [⟨1, [1 / 2]⟩] = 1 / 2 := by
    norm_num [firstPass, peakOfChunk, List.range_succ, e1]
  have hact : Active 1 ⟨1, [1 / 2]⟩ := by
    rw [active_iff]
    norm_num [scanFrame, scanSample, List.range_succ, EPSILON, e1]
  have hst : finalState 1 44100 (fun _ => [0, 1]) [⟨1, [1 / 2]⟩] =
      analyzeFrame 1 44100 (fun _ => [0, 1]) (MagToDb (1 / 2)) initState ⟨1, [1 / 2]⟩ := by
    unfold finalState
    rw [hpk, secondPass_cons _ _ _ _ _ _ _ (by norm_num)]
    rfl
  obtain ⟨g1, g2, g3⟩ := analyzeFrame_of_active 1 44100 (fun _ => [0, 1])
    (MagToDb (1 / 2)) initState ⟨1, [1 / 2]⟩ hact
  have hq : Qualifies (MagToDb (1 / 2)) (([0, 1] : List ℚ).getD 1 0) := by
    have e : ([0, 1] : List ℚ).getD 1 0 = 1 := rfl
    have p : 0 < MagToDb (1 + EPSILON) := MagToDb_pos _ (by norm_num [EPSILON])
    have n : MagToDb (1 / 2) < 0 := MagToDb_neg _ (by norm_num) (by norm_num [EPSILON])
    rw [e]
    unfold Qualifies
    rw [hM, hC]
    constructor <;> linarith
  have hbest : findBestFreq (MagToDb (1 / 2)) 44100 [0, 1] 2 = 11025 / 256 := by
    rw [findBestFreq_of_greatest _ 44100 [0, 1] 1 hq 2 (by norm_num)
      (fun j h1 h2 => by omega)]
    norm_num [FRAME_SIZE]
  have hff : (finalState 1 44100 (fun _ => [0, 1]) [⟨1, [1 / 2]⟩]).frameFreqs
      = [11025 / 256] := by
    rw [hst, analyzeFrame_frameFreqs]
    have hl : (frameMags 1 (fun _ => [0, 1]) initState.mono ⟨1, [1 / 2]⟩) = [0, 1] := rfl
    have hl2 : ([0, 1] : List ℚ).length = 2 := rfl
    rw [hl, hl2, hbest]
    norm_num [initState]
  have hmf : maxFreqOf [11025 / 256] = 11025 / 256 := by
    have hp : percentileIndex 1 = 0 := percentileIndex_small (le_refl _) (by norm_num)
    simp [maxFreqOf, hp]
  have hrate : exportSampleRate (11025 / 256) = 8000 := by
    unfold exportSampleRate
    have hfl : ⌊(11025 / 256 : ℚ) * 2 * FREQ_MARGIN⌋ = 99 := by
      rw [Int.floor_eq_iff]; norm_num [FREQ_MARGIN]
    rw [toInt_of_nonneg (by norm_num [FREQ_MARGIN]), hfl, quantize_eq]
    norm_num
  rw [ProcessFile_result, hff, hmf, hrate, hst, g1, g2, g3]
  rw [if_pos (by norm_num)]
  exact ⟨_, rfl, rfl, rfl, rfl, rfl⟩

namespace Binary32

/-! ## Rounding to binary32 -/

theorem roundHalfEven_sub_le (y : ℚ) : |(roundHalfEven y : ℚ) - y| ≤ 1 / 2 := by
  have h0 := Int.fract_nonneg y
  have h1 := Int.fract_lt_one y
  have hf : (⌊y⌋ : ℚ) = y - Int.fract y := by
    rw [Int.fract]; ring
  unfold roundHalfEven
  split_ifs with a b c
  · rw [hf, abs_le]; constructor <;> linarith
  · push_cast; rw [hf, abs_le]; constructor <;> linarith
  · rw [hf, abs_le]; constructor <;> linarith
  · push_cast; rw [hf, abs_le]; constructor <;> linarith

theorem roundHalfEven_eq_of_near (y : ℚ) (m : ℤ) (h : |y - m| < 1 / 2) :
    roundHalfEven y = m := by
  have hr := roundHalfEven_sub_le y
  rw [abs_lt] at h
  rw [abs_le] at hr
  have h1 : ((roundHalfEven y - m : ℤ) : ℚ) < 1 := by
    push_cast; linarith [h.1, h.2, hr.1, hr.2]
  have h2 : (-1 : ℚ) < ((roundHalfEven y - m : ℤ) : ℚ) := by
    push_cast; linarith [h.1, h.2, hr.1, hr.2]
  have h1' : roundHalfEven y - m < 1 := by exact_mod_cast h1
  have h2' : -1 < roundHalfEven y - m := by exact_mod_cast h2
  omega

theorem two_zpow_pos (j : ℤ) : (0 : ℚ) < 2 ^ j := by positivity

theorem rnd_lattice (x : ℚ) : ∃ k : ℤ, rnd x = (k : ℚ) * 2 ^ ulpExp x :=
  ⟨_, rfl⟩

theorem rnd_sub_le (x : ℚ) : |rnd x - x| ≤ 2 ^ ulpExp x / 2 := by
  have hp := two_zpow_pos (ulpExp x)
  have h := roundHalfEven_sub_le (x / 2 ^ ulpExp x)
  have e : rnd x - x = ((roundHalfEven (x / 2 ^ ulpExp x) : ℚ) - x / 2 ^ ulpExp x)
      * 2 ^ ulpExp x := by
    unfold rnd
    field_simp
  rw [e, abs_mul, abs_of_pos hp]
  calc |(roundHalfEven (x / 2 ^ ulpExp x) : ℚ) - x / 2 ^ ulpExp x| * 2 ^ ulpExp x
      ≤ 1 / 2 * 2 ^ ulpExp x := mul_le_mul_of_nonneg_right h hp.le
    _ = 2 ^ ulpExp x / 2 := by ring

theorem rnd_eq_of_near (x : ℚ) (m : ℤ) (h : |x - (m : ℚ) * 2 ^ ulpExp x| < 2 ^ ulpExp x / 2) :
    rnd x = (m : ℚ) * 2 ^ ulpExp x := by
  have hp := two_zpow_pos (ulpExp x)
  unfold rnd
  congr 2
  apply roundHalfEven_eq_of_near
  have e : x / 2 ^ ulpExp x - m = (x - (m : ℚ) * 2 ^ ulpExp x) / 2 ^ ulpExp x := by
    field_simp
    ring
  rw [e, abs_div, abs_of_pos hp, div_lt_iff₀ hp]
  linarith

theorem ulpExp_eq (x : ℚ) (e : ℤ) (he : -126 ≤ e) (h1 : (2 : ℚ) ^ e ≤ |x|)
    (h2 : |x| < (2 : ℚ) ^ (e + 1)) : ulpExp x = e - 23 := by
  have hpos : 0 < |x| := lt_of_lt_of_le (two_zpow_pos e) h1
  have a : e ≤ Int.log 2 |x| := by
    rw [← Int.zpow_le_iff_le_log (by norm_num) hpos]
    exact_mod_cast h1
  have b : Int.log 2 |x| < e + 1 := by
    rw [← Int.lt_zpow_iff_log_lt (by norm_num) hpos]
    exact_mod_cast h2
  unfold ulpExp
  have : Int.log 2 |x| = e := by omega
  rw [this, max_eq_left he]

theorem rnd_zero : rnd 0 = 0 := by
  simp [rnd, roundHalfEven]

theorem ulpExp_le_of_lt (x : ℚ) (j : ℤ) (hj : -149 ≤ j) (h0 : x ≠ 0)
    (hx : |x| < (2 : ℚ) ^ (j + 24)) : ulpExp x ≤ j := by
  unfold ulpExp
  have hpos : 0 < |x| := abs_pos.mpr h0
  have b : Int.log 2 |x| < j + 24 := by
    rw [← Int.lt_zpow_iff_log_lt (by norm_num) hpos]
    exact_mod_cast hx
  have : max (Int.log 2 |x|) (-126) ≤ j + 23 := max_le (by omega) (by omega)
  omega

theorem rnd_of_dyadic (m j : ℤ) (hj : -149 ≤ j) (hm : |m| < 2 ^ 24) :
    rnd ((m : ℚ) * 2 ^ j) = (m : ℚ) * 2 ^ j := by
  rcases eq_or_ne m 0 with rfl | hm0
  · simp [rnd_zero]
  have hx : |(m : ℚ) * 2 ^ j| < (2 : ℚ) ^ (j + 24) := by
    rw [abs_mul, abs_of_pos (two_zpow_pos j), zpow_add₀ (by norm_num), mul_comm]
    apply mul_lt_mul_of_pos_left _ (two_zpow_pos j)
    have h1 : ((|m| : ℤ) : ℚ) < ((2 ^ 24 : ℤ) : ℚ) := by exact_mod_cast hm
    rw [Int.cast_abs] at h1
    rw [zpow_ofNat]
    exact_mod_cast h1
  have hne : (m : ℚ) * 2 ^ j ≠ 0 :=
    mul_ne_zero (by exact_mod_cast hm0) (two_zpow_pos j).ne.symm
  have hu := ulpExp_le_of_lt _ j hj hne hx
  obtain ⟨d, hd⟩ := Int.le.dest hu
  have hj2 : j = ulpExp ((m : ℚ) * 2 ^ j) + d := by omega
  have e : (m : ℚ) * 2 ^ j = ((m * 2 ^ d : ℤ) : ℚ) * 2 ^ ulpExp ((m : ℚ) * 2 ^ j) := by
    conv_lhs => rw [hj2]
    rw [zpow_add₀ (by norm_num), zpow_natCast]
    push_cast
    ring
  have := rnd_eq_of_near ((m : ℚ) * 2 ^ j) (m * 2 ^ d) (by
    rw [← e, sub_self, abs_zero]
    have := two_zpow_pos (ulpExp ((m : ℚ) * 2 ^ j))
    positivity)
  rw [this, ← e]

theorem rnd_natCast (n : ℕ) (hn : n < 2 ^ 24) : rnd (n : ℚ) = n := by
  have := rnd_of_dyadic (n : ℤ) 0 (by norm_num) (by
    rw [abs_of_nonneg (by positivity)]
    exact_mod_cast hn)
  simpa using this

theorem rnd_rel (x : ℚ) (hx : (2 : ℚ) ^ (-126 : ℤ) ≤ |x|) :
    |rnd x - x| ≤ |x| * 2 ^ (-24 : ℤ) := by
  have hpos : 0 < |x| := lt_of_lt_of_le (two_zpow_pos _) hx
  have a : (-126 : ℤ) ≤ Int.log 2 |x| := by
    rw [← Int.zpow_le_iff_le_log (by norm_num) hpos]
    exact_mod_cast hx
  have hl : ((2 : ℕ) : ℚ) ^ Int.log 2 |x| ≤ |x| := Int.zpow_log_le_self (by norm_num) hpos
  have hu : ulpExp x = Int.log 2 |x| - 23 := by
    unfold ulpExp
    rw [max_eq_left a]
  have h := rnd_sub_le x
  rw [hu] at h
  have e : (2 : ℚ) ^ (Int.log 2 |x| - 23) / 2 = 2 ^ Int.log 2 |x| * 2 ^ (-24 : ℤ) := by
    rw [zpow_sub₀ (by norm_num)]
    norm_num
    ring
  rw [e] at h
  calc |rnd x - x| ≤ 2 ^ Int.log 2 |x| * 2 ^ (-24 : ℤ) := h
    _ ≤ |x| * 2 ^ (-24 : ℤ) := by
      apply mul_le_mul_of_nonneg_right _ (two_zpow_pos _).le
      exact_mod_cast hl

theorem rnd_pos (x : ℚ) (hx : (2 : ℚ) ^ (-126 : ℤ) ≤ x) : 0 < rnd x := by
  have hpos : 0 < x := lt_of_lt_of_le (two_zpow_pos _) hx
  have h := rnd_rel x (by rwa [abs_of_pos hpos])
  rw [abs_of_pos hpos, abs_le] at h
  have : (2 : ℚ) ^ (-24 : ℤ) < 1 := by norm_num
  nlinarith [h.1]

theorem rnd_normal (x : ℚ) (hx : (2 : ℚ) ^ (-126 : ℤ) ≤ x) :
    ∃ e k : ℤ, -126 ≤ e ∧ (2 : ℚ) ^ e ≤ x ∧ x < (2 : ℚ) ^ (e + 1) ∧
      rnd x = (k : ℚ) * 2 ^ (e - 23) ∧ |rnd x - x| ≤ 2 ^ (e - 23) / 2 := by
  have hpos : 0 < x := lt_of_lt_of_le (two_zpow_pos _) hx
  have habs : |x| = x := abs_of_pos hpos
  have a : (-126 : ℤ) ≤ Int.log 2 x := by
    rw [← Int.zpow_le_iff_le_log (by norm_num) hpos]
    exact_mod_cast hx
  have hl : ((2 : ℕ) : ℚ) ^ Int.log 2 x ≤ x := Int.zpow_log_le_self (by norm_num) hpos
  have hr : x < ((2 : ℕ) : ℚ) ^ (Int.log 2 x + 1) := Int.lt_zpow_succ_log_self (by norm_num) x
  have hu : ulpExp x = Int.log 2 x - 23 := by
    unfold ulpExp
    rw [habs, max_eq_left a]
  refine ⟨Int.log 2 x, roundHalfEven (x / 2 ^ ulpExp x), a, by exact_mod_cast hl,
    by exact_mod_cast hr, ?_, ?_⟩
  · rw [← hu]; rfl
  · rw [← hu]; exact rnd_sub_le x

theorem rnd_eq_of_binade (x : ℚ) (e m : ℤ) (he : -126 ≤ e) (h1 : (2 : ℚ) ^ e ≤ |x|)
    (h2 : |x| < (2 : ℚ) ^ (e + 1)) (h : |x - (m : ℚ) * 2 ^ (e - 23)| < 2 ^ (e - 23) / 2) :
    rnd x = (m : ℚ) * 2 ^ (e - 23) := by
  have hu := ulpExp_eq x e he h1 h2
  have := rnd_eq_of_near x m (by rw [hu]; exact h)
  rw [this, hu]

theorem EPSILON_eq_rnd : rnd (1 / 1000000000) = EPSILON := by
  have e1 : |(1 / 1000000000 : ℚ)| = 1 / 1000000000 := abs_of_pos (by norm_num)
  rw [rnd_eq_of_binade (1 / 1000000000) (-30) 9007199 (by norm_num)
    (by rw [e1]; norm_num) (by rw [e1]; norm_num)
    (by rw [abs_lt]; constructor <;> norm_num)]
  norm_num [EPSILON]

theorem P95_eq_rnd : rnd (95 / 100) = P95 := by
  have e1 : |(95 / 100 : ℚ)| = 95 / 100 := abs_of_pos (by norm_num)
  rw [rnd_eq_of_binade (95 / 100) (-1) 15938355 (by norm_num)
    (by rw [e1]; norm_num) (by rw [e1]; norm_num)
    (by rw [abs_lt]; constructor <;> norm_num)]
  norm_num [P95]

/-! ## The percentile index in binary32 -/

theorem percentileIndex_zero : percentileIndex 0 = 0 := by
  simp [percentileIndex, fmul, rnd_zero]

theorem percentileIndex_lt {n : ℕ} (hn : 0 < n) : percentileIndex n < n := by
  have h1 : (1 : ℚ) ≤ n := by exact_mod_cast hn
  have e24 : (2 : ℚ) ^ (-24 : ℤ) = 1 / 16777216 := by norm_num
  have e126 : (2 : ℚ) ^ (-126 : ℤ) ≤ 1 / 2 := by
    have : (2 : ℚ) ^ (-126 : ℤ) ≤ 2 ^ (-1 : ℤ) := zpow_le_zpow_right₀ (by norm_num) (by norm_num)
    simpa using this
  have hn' : |(n : ℚ)| = n := abs_of_pos (by linarith)
  have r1 := rnd_rel (n : ℚ) (by rw [hn']; exact le_trans e126 (by linarith))
  rw [hn', e24, abs_le] at r1
  have hP : P95 = 15938355 / 16777216 := by norm_num [P95]
  have hp0 : (1 : ℚ) / 2 ≤ rnd (n : ℚ) * P95 := by
    rw [hP]; nlinarith [r1.1]
  have hp' : |rnd (n : ℚ) * P95| = rnd (n : ℚ) * P95 := abs_of_pos (by linarith)
  have r2 := rnd_rel (rnd (n : ℚ) * P95) (by rw [hp']; exact le_trans e126 hp0)
  rw [hp', e24, abs_le] at r2
  unfold percentileIndex fmul
  have hnn : 0 ≤ rnd (rnd (n : ℚ) * P95) := by nlinarith [r2.1]
  rw [Nat.floor_lt hnn]
  rw [hP] at r2 hp0 ⊢
  nlinarith [r1.2, r2.2]

theorem percentileIndex_eq_div (n : ℕ) (hn : n < 2207541) :
    percentileIndex n = 19 * n / 20 := by
  rcases Nat.eq_zero_or_pos n with rfl | hpos
  · rw [percentileIndex_zero]
  have h1 : (1 : ℚ) ≤ n := by exact_mod_cast hpos
  have hnq : (n : ℚ) < 2207541 := by exact_mod_cast hn
  have hrn : rnd (n : ℚ) = n := rnd_natCast n (by omega)
  have hP : P95 = 15938355 / 16777216 := by norm_num [P95]
  have e126 : (2 : ℚ) ^ (-126 : ℤ) ≤ 1 / 2 := by
    have : (2 : ℚ) ^ (-126 : ℤ) ≤ 2 ^ (-1 : ℤ) := zpow_le_zpow_right₀ (by norm_num) (by norm_num)
    simpa using this
  have hp0 : (1 : ℚ) / 2 ≤ (n : ℚ) * P95 := by rw [hP]; linarith
  obtain ⟨e, k, -, hlo, hhi, hk, herr⟩ := rnd_normal ((n : ℚ) * P95) (le_trans e126 hp0)
  -- the binade of the product is at most 2^21
  have he : e ≤ 21 := by
    by_contra hc
    push_neg at hc
    have : (2 : ℚ) ^ (22 : ℤ) ≤ 2 ^ e := zpow_le_zpow_right₀ (by norm_num) (by omega)
    have h22 : (2 : ℚ) ^ (22 : ℤ) = 4194304 := by norm_num
    rw [hP] at hlo
    linarith
  obtain ⟨d, hd⟩ := Int.le.dest (show e ≤ 23 by omega)
  have hd2 : 2 ≤ d := by omega
  have he' : e = 23 - (d : ℤ) := by omega
  have hU : (0 : ℚ) < 2 ^ d := by positivity
  have hu : (2 : ℚ) ^ (e - 23) = 1 / 2 ^ d := by
    have : e - 23 = -(d : ℤ) := by omega
    rw [this, zpow_neg, zpow_natCast, one_div]
  have hlo' : (8388608 : ℚ) / 2 ^ d ≤ (n : ℚ) * P95 := by
    have : (2 : ℚ) ^ e = 8388608 / 2 ^ d := by
      rw [he', zpow_sub₀ (by norm_num), zpow_natCast]; norm_num
    rwa [this] at hlo
  have hhi' : (n : ℚ) * P95 < 16777216 / 2 ^ d := by
    have : (2 : ℚ) ^ (e + 1) = 16777216 / 2 ^ d := by
      have : e + 1 = 24 - (d : ℤ) := by omega
      rw [this, zpow_sub₀ (by norm_num), zpow_natCast]; norm_num
    rwa [this] at hhi
  rw [hu] at hk herr
  rw [abs_le] at herr
  -- exact value of the product
  obtain ⟨F, hF⟩ : ∃ F : ℕ, F = 19 * n / 20 := ⟨_, rfl⟩
  obtain ⟨r, hR⟩ : ∃ r : ℕ, r = 19 * n % 20 := ⟨_, rfl⟩
  have hdiv : 19 * n = 20 * F + r := by
    rw [hF, hR]; exact (Nat.div_add_mod _ _).symm
  have hr : r < 20 := by
    rw [hR]; exact Nat.mod_lt _ (by norm_num)
  rw [← hF]
  clear hF hR
  have hdivq : (19 : ℚ) * n = 20 * (F : ℚ) + (r : ℚ) := by
    exact_mod_cast hdiv
  have hrq : (r : ℚ) ≤ 19 := by
    have : r ≤ 19 := by omega
    exact_mod_cast this
  have hr0 : (0 : ℚ) ≤ (r : ℚ) := by positivity
  have hp : (n : ℚ) * P95 =
      (F : ℚ) + (r : ℚ) / 20 - (n : ℚ) / 83886080 := by
    rw [hP]; linarith
  have hkq : rnd ((n : ℚ) * P95) * 2 ^ d = k := by
    rw [hk]; field_simp
  -- the rounding error and the deficit of `0.95f`, in units of the last place
  have herr1 : -(1 / 2 : ℚ) ≤ (k : ℚ) - (n : ℚ) * P95 * 2 ^ d := by
    have := mul_le_mul_of_nonneg_right herr.1 hU.le
    rw [sub_mul, hkq] at this
    have e : -(1 / 2 ^ d / 2) * (2 : ℚ) ^ d = -(1 / 2) := by field_simp
    linarith
  have herr2 : (k : ℚ) - (n : ℚ) * P95 * 2 ^ d ≤ 1 / 2 := by
    have := mul_le_mul_of_nonneg_right herr.2 hU.le
    rw [sub_mul, hkq] at this
    have e : (1 / 2 ^ d / 2) * (2 : ℚ) ^ d = 1 / 2 := by field_simp
    linarith
  have hhiU : (n : ℚ) * P95 * 2 ^ d < 16777216 := (lt_div_iff₀ hU).mp hhi'
  have hloU : (8388608 : ℚ) ≤ (n : ℚ) * P95 * 2 ^ d := (div_le_iff₀ hU).mp hlo'
  have hpU : (n : ℚ) * P95 * 2 ^ d =
      (F : ℚ) * 2 ^ d + (r : ℚ) / 20 * 2 ^ d
        - (n : ℚ) * 2 ^ d / 83886080 := by
    rw [hp]; ring
  have hnU : (n : ℚ) * 2 ^ d / 83886080 < 1 / 2 := by
    rw [hP] at hhiU
    linarith
  have hrU : (0 : ℚ) ≤ (r : ℚ) / 20 * 2 ^ d := by positivity
  -- lower bound: the rounded product is a multiple of the unit above F - unit
  have hlow : (F : ℚ) ≤ rnd ((n : ℚ) * P95) := by
    have h1 : ((F : ℤ) * 2 ^ d - 1 : ℤ) < k := by
      have : (((F : ℤ) * 2 ^ d - 1 : ℤ) : ℚ) < (k : ℚ) := by
        push_cast
        linarith
      exact_mod_cast this
    have h2 : (F : ℤ) * 2 ^ d ≤ k := by omega
    have h3 : (F : ℚ) * 2 ^ d ≤ (k : ℚ) := by exact_mod_cast h2
    rw [← hkq] at h3
    exact le_of_mul_le_mul_right h3 hU
  -- upper bound, by the size of the unit
  have hupp : rnd ((n : ℚ) * P95) < (F : ℚ) + 1 := by
    have hgoal : rnd ((n : ℚ) * P95) * 2 ^ d < ((F : ℚ) + 1) * 2 ^ d := by
      rw [hkq]
      rcases Nat.lt_or_ge d 4 with hlt | hge
      · have hd' : d = 2 ∨ d = 3 := by omega
        rcases hd' with rfl | rfl
        · -- unit 1/4: the product is at least 2^21
          norm_num at hloU hpU herr2 ⊢
          have hn1 : (35184372088832 : ℚ) ≤ (n : ℚ) * 15938355 := by
            rw [hP] at hloU; linarith
          have hn2 : 35184372088832 ≤ n * 15938355 := by exact_mod_cast hn1
          have hr18 : r ≤ 18 := by omega
          have hr18q : (r : ℚ) ≤ 18 := by exact_mod_cast hr18
          have hn3n : 2207529 ≤ n := by omega
          have hn3 : (2207529 : ℚ) ≤ (n : ℚ) := by exact_mod_cast hn3n
          linarith
        · -- unit 1/8: the product is at least 2^20
          norm_num at hloU hpU herr2 ⊢
          have hn1 : (1048576 : ℚ) < n := by
            rw [hP] at hloU; linarith
          linarith
      · -- unit at most 1/16
        have h16 : (16 : ℚ) ≤ 2 ^ d := by
          have : (2 : ℚ) ^ 4 ≤ 2 ^ d := pow_le_pow_right₀ (by norm_num) hge
          linarith
        have hnpos : (0 : ℚ) < (n : ℚ) * 2 ^ d / 83886080 := by positivity
        have : (r : ℚ) / 20 * 2 ^ d ≤ 19 / 20 * 2 ^ d :=
          mul_le_mul_of_nonneg_right (by linarith) hU.le
        linarith
    exact lt_of_mul_lt_mul_right hgoal hU.le
  unfold percentileIndex fmul
  rw [hrn]
  exact (Nat.floor_eq_iff (le_trans (Nat.cast_nonneg _) hlow)).mpr ⟨hlow, hupp⟩

theorem percentileIndex_2207541 : percentileIndex 2207541 = 2097164 := by
  have hrn : rnd ((2207541 : ℕ) : ℚ) = (2207541 : ℕ) := rnd_natCast 2207541 (by norm_num)
  have hP : P95 = 15938355 / 16777216 := by norm_num [P95]
  have e1 : |(2207541 * (15938355 / 16777216) : ℚ)| = 2207541 * (15938355 / 16777216) :=
    abs_of_pos (by norm_num)
  have hr : rnd (2207541 * (15938355 / 16777216)) = 2097164 := by
    rw [rnd_eq_of_binade _ 21 8388656 (by norm_num)
      (by rw [e1]; norm_num) (by rw [e1]; norm_num)
      (by rw [abs_lt]; constructor <;> norm_num)]
    norm_num
  unfold percentileIndex fmul
  rw [hrn, hP]
  push_cast
  rw [hr]
  exact Nat.floor_natCast 2097164

theorem maxFreqOf_eq_getElem (frameFreqs : List ℚ) (h : frameFreqs ≠ []) :
    (frameFreqs.insertionSort (· ≤ ·))[percentileIndex frameFreqs.length]? =
      some (maxFreqOf frameFreqs) := by
  have hlen : percentileIndex frameFreqs.length <
      (frameFreqs.insertionSort (· ≤ ·)).length := by
    rw [List.length_insertionSort]
    exact percentileIndex_lt (List.length_pos.mpr h)
  have hne : frameFreqs.isEmpty = false := by
    cases frameFreqs with
    | nil => exact absurd rfl h
    | cons a l => rfl
  unfold maxFreqOf
  simp only [hne, Bool.false_eq_true, if_false]
  rw [List.getD_eq_getElem?_getD, List.getElem?_eq_getElem hlen]
  simp

theorem floor_mul_95 (n : ℕ) : ⌊(n : ℚ) * (95 / 100)⌋₊ = 19 * n / 20 := by
  have : (n : ℚ) * (95 / 100) = ((19 * n : ℕ) : ℚ) / ((20 : ℕ) : ℚ) := by
    push_cast; ring
  rw [this, Nat.floor_div_eq_div]

/-- C10 (as stated, refuted): for a list of `n = 2207541` dominant frequencies
the index the program computes, the binary32 product `n * 0.95f` truncated, is
`2097164`, while `floor(n * 0.95)` is `2097163`; `maxFreq` is the element at
position `2097164` of the sorted list. -/
theorem percentile_index_differs_from_floor :
    percentileIndex 2207541 = 2097164 ∧
    ⌊((2207541 : ℕ) : ℚ) * (95 / 100)⌋₊ = 2097163 ∧
    (∀ frameFreqs : List ℚ, frameFreqs.length = 2207541 →
      (frameFreqs.insertionSort (· ≤ ·))[2097164]? = some (maxFreqOf frameFreqs)) := by
  refine ⟨percentileIndex_2207541, ?_, ?_⟩
  · rw [floor_mul_95]
  · intro frameFreqs hl
    have hne : frameFreqs ≠ [] := by
      intro h0
      rw [h0] at hl
      simp at hl
    have := maxFreqOf_eq_getElem frameFreqs hne
    rw [hl, percentileIndex_2207541] at this
    exact this

/-- C10 (amended): for every non-empty list of `n` dominant frequencies the
percentile index the program computes, the binary32 product `n * 0.95f`
truncated to an integer, is below `n`, and `maxFreq` is the element at that
position of the list sorted ascending; for `n < 2207541` the index is
`floor(n * 0.95)`, and for `n ≤ 20` it is `n - 1` and `maxFreq` is the maximum
of the list.  (Last two components: the index and the constant `0.95f` spelled
out.) -/
theorem percentile_index_binary32 (frameFreqs : List ℚ) (h : frameFreqs ≠ []) :
    percentileIndex frameFreqs.length < frameFreqs.length ∧
    (frameFreqs.insertionSort (· ≤ ·)).Sorted (· ≤ ·) ∧
    (frameFreqs.insertionSort (· ≤ ·)).Perm frameFreqs ∧
    (frameFreqs.insertionSort (· ≤ ·))[percentileIndex frameFreqs.length]? =
      some (maxFreqOf frameFreqs) ∧
    (frameFreqs.length < 2207541 →
      percentileIndex frameFreqs.length = ⌊(frameFreqs.length : ℚ) * (95 / 100)⌋₊) ∧
    (frameFreqs.length ≤ 20 →
      percentileIndex frameFreqs.length = frameFreqs.length - 1 ∧
      maxFreqOf frameFreqs ∈ frameFreqs ∧
      ∀ f ∈ frameFreqs, f ≤ maxFreqOf frameFreqs) ∧
    percentileIndex frameFreqs.length = ⌊rnd (rnd (frameFreqs.length : ℚ) * P95)⌋₊ ∧
    P95 = rnd (95 / 100) := by
  have hpos : 0 < frameFreqs.length := List.length_pos.mpr h
  have hsorted := List.sorted_insertionSort (· ≤ ·) frameFreqs
  have hperm := List.perm_insertionSort (· ≤ ·) frameFreqs
  have hget := maxFreqOf_eq_getElem frameFreqs h
  refine ⟨percentileIndex_lt hpos, hsorted, hperm, hget, ?_, ?_, rfl, P95_eq_rnd.symm⟩
  · intro hlt
    rw [floor_mul_95]
    exact percentileIndex_eq_div _ hlt
  intro h20
  have hidx : percentileIndex frameFreqs.length = frameFreqs.length - 1 := by
    rw [percentileIndex_eq_div _ (by omega)]
    omega
  refine ⟨hidx, ?_, ?_⟩
  · exact hperm.mem_iff.mp (List.getElem?_mem hget)
  · intro f hf
    have hf' : f ∈ frameFreqs.insertionSort (· ≤ ·) := hperm.mem_iff.mpr hf
    obtain ⟨i, hi, rfl⟩ := List.mem_iff_getElem.mp hf'
    have hlen : (frameFreqs.insertionSort (· ≤ ·)).length = frameFreqs.length :=
      List.length_insertionSort _ _
    have hj : frameFreqs.length - 1 < (frameFreqs.insertionSort (· ≤ ·)).length := by
      omega
    rw [hidx, List.getElem?_eq_getElem hj, Option.some.injEq] at hget
    rw [← hget]
    rcases Nat.lt_or_ge i (frameFreqs.length - 1) with hlt | hge
    · exact List.pairwise_iff_getElem.mp hsorted i (frameFreqs.length - 1) hi hj hlt
    · have : i = frameFreqs.length - 1 := by omega
      subst this
      exact le_refl _

/-- Witness of C10 (amended): for 21 frequencies the index is `19`, so `maxFreq`
is the second largest value. -/
theorem percentile_index_twenty_one :
    percentileIndex
      ([2, 1, 3, 4, 5, 6, 7, 8, 9, 10, 11, 12, 13, 14, 15, 16, 17, 18, 19, 21, 20] :
        List ℚ).length = 19 ∧
    maxFreqOf [2, 1, 3, 4, 5, 6, 7, 8, 9, 10, 11, 12, 13, 14, 15, 16, 17, 18, 19, 21, 20]
      = 20 := by
  have h := percentile_index_binary32
    [2, 1, 3, 4, 5, 6, 7, 8, 9, 10, 11, 12, 13, 14, 15, 16, 17, 18, 19, 21, 20] (by simp)
  have hi := h.2.2.2.2.1 (by norm_num)
  rw [floor_mul_95] at hi
  have hg := h.2.2.2.1
  rw [hi] at hg
  constructor
  · exact hi
  · have hs : ([2, 1, 3, 4, 5, 6, 7, 8, 9, 10, 11, 12, 13, 14, 15, 16, 17, 18, 19, 21, 20] :
        List ℚ).insertionSort (· ≤ ·) =
        [1, 2, 3, 4, 5, 6, 7, 8, 9, 10, 11, 12, 13, 14, 15, 16, 17, 18, 19, 20, 21] := by
      norm_num [List.insertionSort, List.orderedInsert]
    rw [hs] at hg
    simpa using hg.symm

/-! ## Levels at concrete values -/

theorem log10Floor_eq (x : ℚ) (k : ℤ) (h1 : (10 : ℚ) ^ k ≤ x) (h2 : x < (10 : ℚ) ^ (k + 1)) :
    log10Floor x = k := by
  have hpos : 0 < x := lt_of_lt_of_le (by positivity) h1
  have a : k ≤ Int.log 10 x := by
    rw [← Int.zpow_le_iff_le_log (by norm_num) hpos]
    exact_mod_cast h1
  have b : Int.log 10 x < k + 1 := by
    rw [← Int.lt_zpow_iff_log_lt (by norm_num) hpos]
    exact_mod_cast h2
  have : Int.log 10 x = k := by omega
  unfold log10Floor
  rw [this]

theorem log10Floor_one : log10Floor 1 = 0 := by
  have := log10Floor_eq 1 0 (by norm_num) (by norm_num)
  simpa using this

theorem rnd_eq_self_of_dyadic (x : ℚ) (m j : ℤ) (hj : -149 ≤ j) (hm : |m| < 2 ^ 24)
    (hx : x = (m : ℚ) * 2 ^ j) : rnd x = x := by
  rw [hx]; exact rnd_of_dyadic m j hj hm

theorem fadd_zero_EPSILON : fadd 0 EPSILON = EPSILON := by
  unfold fadd
  rw [zero_add]
  exact rnd_eq_self_of_dyadic _ 9007199 (-53) (by norm_num) (by norm_num)
    (by norm_num [EPSILON])

theorem fadd_EPSILON_EPSILON : fadd EPSILON EPSILON = 9007199 / 2 ^ 52 := by
  unfold fadd
  have e : EPSILON + EPSILON = 9007199 / 2 ^ 52 := by norm_num [EPSILON]
  rw [e]
  exact rnd_eq_self_of_dyadic _ 9007199 (-52) (by norm_num) (by norm_num) (by norm_num)

/-- Adding `EPSILON` to a binary32 value `2^e ≤ x < 2^(e+1)` with `e ≥ -5` leaves
it unchanged: `EPSILON` is below half a unit in the last place. -/
theorem fadd_EPSILON_absorbed (x : ℚ) (e m : ℤ) (he : -5 ≤ e) (hm1 : 2 ^ 23 ≤ m)
    (hm2 : m < 2 ^ 24) (hx : x = (m : ℚ) * 2 ^ (e - 23)) : fadd x EPSILON = x := by
  have hE : EPSILON = 9007199 / 9007199254740992 := by norm_num [EPSILON]
  have hu : (0 : ℚ) < 2 ^ (e - 23) := two_zpow_pos _
  have h23 : (2 : ℚ) ^ e = 2 ^ 23 * 2 ^ (e - 23) := by
    rw [← zpow_natCast, ← zpow_add₀ (by norm_num)]; congr 1; omega
  have h24 : (2 : ℚ) ^ (e + 1) = 2 ^ 24 * 2 ^ (e - 23) := by
    rw [← zpow_natCast, ← zpow_add₀ (by norm_num)]; congr 1; omega
  have hm1q : ((2 : ℚ) ^ 23) ≤ (m : ℚ) := by exact_mod_cast hm1
  have hm2q : (m : ℚ) + 1 ≤ (2 : ℚ) ^ 24 := by
    have : m + 1 ≤ 2 ^ 24 := by omega
    exact_mod_cast this
  have hlow : (2 : ℚ) ^ (-28 : ℤ) ≤ 2 ^ (e - 23) := zpow_le_zpow_right₀ (by norm_num) (by omega)
  have h29 : (2 : ℚ) ^ (-28 : ℤ) = 1 / 268435456 := by norm_num
  rw [h29] at hlow
  have hxpos : 0 < x := by rw [hx]; positivity
  have habs : |x + EPSILON| = x + EPSILON := abs_of_pos (by rw [hE]; linarith)
  unfold fadd
  rw [rnd_eq_of_binade (x + EPSILON) e m (by omega)
    (by rw [habs, h23, hx, hE]; nlinarith)
    (by rw [habs, h24, hx, hE]; nlinarith)
    (by
      rw [hx, add_sub_cancel_left, abs_of_pos (by rw [hE]; norm_num), hE]
      linarith)]
  exact hx.symm

theorem fmul_twenty_int (k : ℤ) (hk : |k| < 400000) : fmul 20 (k : ℚ) = 20 * k := by
  unfold fmul
  have := rnd_of_dyadic (20 * k) 0 (by norm_num) (by
    rw [abs_mul]
    have : |(20 : ℤ)| = 20 := by norm_num
    rw [this]
    omega)
  simpa using this

theorem MagToDb_log10Floor_zero : MagToDb log10Floor (fadd 0 EPSILON) = -180 := by
  unfold MagToDb
  rw [fadd_zero_EPSILON, fadd_EPSILON_EPSILON,
    log10Floor_eq _ (-9) (by norm_num) (by norm_num)]
  have := fmul_twenty_int (-9) (by norm_num)
  norm_num at this ⊢
  exact this

theorem MagToDb_log10Floor_half : MagToDb log10Floor (fadd (1 / 2) EPSILON) = -20 := by
  have h := fadd_EPSILON_absorbed (1 / 2) (-1) 8388608 (by norm_num) (by norm_num)
    (by norm_num) (by norm_num)
  unfold MagToDb
  rw [h, h, log10Floor_eq _ (-1) (by norm_num) (by norm_num)]
  have := fmul_twenty_int (-1) (by norm_num)
  norm_num at this ⊢
  exact this

theorem MagToDb_log10Floor_quarter : MagToDb log10Floor (fadd (1 / 4) EPSILON) = -20 := by
  have h := fadd_EPSILON_absorbed (1 / 4) (-2) 8388608 (by norm_num) (by norm_num)
    (by norm_num) (by norm_num)
  unfold MagToDb
  rw [h, h, log10Floor_eq _ (-1) (by norm_num) (by norm_num)]
  have := fmul_twenty_int (-1) (by norm_num)
  norm_num at this ⊢
  exact this

theorem MagToDb_one (flog10 : ℚ → ℚ) (h1 : flog10 1 = 0) :
    MagToDb flog10 (fadd 1 EPSILON) = 0 := by
  have h := fadd_EPSILON_absorbed 1 0 8388608 (by norm_num) (by norm_num)
    (by norm_num) (by norm_num)
  unfold MagToDb
  rw [h, h, h1]
  unfold fmul
  rw [mul_zero, rnd_zero]

/-! ## The second pass in binary32 -/

theorem foldl_scanSample_peak_b32 (channels : ℕ) (buffer : List ℚ) (l : List ℕ) :
    ∀ s s' : FrameScan, s.peak = s'.peak →
      (l.foldl (scanSample channels buffer) s).peak =
        (l.foldl (scanSample channels buffer) s').peak := by
  induction l with
  | nil => intro s s' h; simpa using h
  | cons i l ih =>
    intro s s' h
    simp only [List.foldl_cons]
    apply ih
    simp only [scanSample, h]

theorem scanFrame_peak_b32 (channels : ℕ) (c : Chunk) (m : Bool) :
    (scanFrame channels c m).peak = (scanFrame channels c true).peak :=
  foldl_scanSample_peak_b32 channels c.buffer _ _ _ rfl

theorem foldl_scanSample_mono_of_false_b32 (channels : ℕ) (buffer : List ℚ) (l : List ℕ) :
    ∀ s : FrameScan, s.mono = false →
      (l.foldl (scanSample channels buffer) s).mono = false := by
  induction l with
  | nil => intro s h; simpa using h
  | cons i l ih =>
    intro s h
    simp only [List.foldl_cons]
    apply ih
    simp only [scanSample, h]
    split_ifs <;> rfl

theorem foldl_scanSample_mono_b32 (channels : ℕ) (buffer : List ℚ) (l : List ℕ) :
    ∀ s : FrameScan, s.mono = true →
      ((l.foldl (scanSample channels buffer) s).mono = true ↔
        ∀ i ∈ l, ¬ (channels ≥ 2 ∧ PairDiffers channels buffer i)) := by
  induction l with
  | nil => intro s h; simpa using h
  | cons i l ih =>
    intro s h
    simp only [List.foldl_cons, List.mem_cons, forall_eq_or_imp]
    by_cases hd : channels ≥ 2 ∧ PairDiffers channels buffer i
    · have hm : (scanSample channels buffer s i).mono = false := by
        unfold PairDiffers at hd
        simp only [scanSample, hd, and_self, if_true]
      rw [foldl_scanSample_mono_of_false_b32 channels buffer l _ hm]
      simp only [Bool.false_eq_true, false_iff, not_and]
      intro h1
      exact absurd hd.2 (h1 hd.1)
    · have hm : (scanSample channels buffer s i).mono = true := by
        unfold PairDiffers at hd
        simp only [scanSample, hd, if_false, h]
      rw [ih _ hm]
      simp [hd]

theorem scanFrame_mono_false_b32 (channels : ℕ) (c : Chunk) :
    (scanFrame channels c false).mono = false :=
  foldl_scanSample_mono_of_false_b32 channels c.buffer _ _ rfl

theorem scanFrame_mono_true_b32 (channels : ℕ) (c : Chunk) :
    (scanFrame channels c true).mono = true ↔
      ∀ i < c.frameNum, ¬ (channels ≥ 2 ∧ PairDiffers channels c.buffer i) := by
  unfold scanFrame
  rw [foldl_scanSample_mono_b32 channels c.buffer _ _ rfl]
  simp [List.mem_range]

theorem analyzeFrame_currentFrame_b32 (flog10 : ℚ → ℚ) (channels sampleRate : ℕ)
    (spectrum : List ℚ → List ℚ) (maxDb : ℚ) (st : AnalysisState) (c : Chunk) :
    (analyzeFrame flog10 channels sampleRate spectrum maxDb st c).currentFrame =
      st.currentFrame + c.frameNum := rfl

theorem analyzeFrame_mono_b32 (flog10 : ℚ → ℚ) (channels sampleRate : ℕ)
    (spectrum : List ℚ → List ℚ) (maxDb : ℚ) (st : AnalysisState) (c : Chunk) :
    (analyzeFrame flog10 channels sampleRate spectrum maxDb st c).mono =
      (scanFrame channels c st.mono).mono := rfl

theorem analyzeFrame_of_active_b32 (flog10 : ℚ → ℚ) (channels sampleRate : ℕ)
    (spectrum : List ℚ → List ℚ) (maxDb : ℚ) (st : AnalysisState) (c : Chunk) (h : Active flog10 channels c) :
    (analyzeFrame flog10 channels sampleRate spectrum maxDb st c).foundStart = true ∧
    (analyzeFrame flog10 channels sampleRate spectrum maxDb st c).firstFrame =
      (if st.foundStart then st.firstFrame else st.currentFrame) ∧
    (analyzeFrame flog10 channels sampleRate spectrum maxDb st c).lastFrame =
      st.currentFrame + c.frameNum := by
  unfold Active at h
  simp only [analyzeFrame, scanFrame_peak_b32 channels c st.mono, h, if_true, and_self]

theorem analyzeFrame_of_inactive_b32 (flog10 : ℚ → ℚ) (channels sampleRate : ℕ)
    (spectrum : List ℚ → List ℚ) (maxDb : ℚ) (st : AnalysisState) (c : Chunk) (h : ¬ Active flog10 channels c) :
    (analyzeFrame flog10 channels sampleRate spectrum maxDb st c).foundStart = st.foundStart ∧
    (analyzeFrame flog10 channels sampleRate spectrum maxDb st c).firstFrame = st.firstFrame ∧
    (analyzeFrame flog10 channels sampleRate spectrum maxDb st c).lastFrame = st.lastFrame := by
  unfold Active at h
  simp only [analyzeFrame, scanFrame_peak_b32 channels c st.mono, h, if_false, and_self]

theorem analyzeFrame_markersOrdered_b32 (flog10 : ℚ → ℚ) (channels sampleRate : ℕ)
    (spectrum : List ℚ → List ℚ) (maxDb : ℚ) (st : AnalysisState) (c : Chunk)
    (h : MarkersOrdered st) :
    MarkersOrdered (analyzeFrame flog10 channels sampleRate spectrum maxDb st c) := by
  intro hf
  rw [analyzeFrame_currentFrame_b32]
  by_cases ha : Active flog10 channels c
  · obtain ⟨-, h2, h3⟩ := analyzeFrame_of_active_b32 flog10 channels sampleRate spectrum maxDb st c ha
    rw [h2, h3]
    by_cases hs : st.foundStart = true
    · have := h hs
      simp only [hs, if_true]
      omega
    · simp only [hs, Bool.false_eq_true, if_false]
      omega
  · obtain ⟨h1, h2, h3⟩ :=
      analyzeFrame_of_inactive_b32 flog10 channels sampleRate spectrum maxDb st c ha
    rw [h1] at hf
    rw [h2, h3]
    have := h hf
    omega

theorem secondPass_cons_b32 (flog10 : ℚ → ℚ) (channels sampleRate : ℕ)
    (spectrum : List ℚ → List ℚ) (maxDb : ℚ) (st : AnalysisState) (c : Chunk) (cs : List Chunk) (h : 0 < c.frameNum) :
    secondPass flog10 channels sampleRate spectrum maxDb st (c :: cs) =
      secondPass flog10 channels sampleRate spectrum maxDb
        (analyzeFrame flog10 channels sampleRate spectrum maxDb st c) cs := by
  simp [secondPass, h]

theorem secondPass_append_b32 (flog10 : ℚ → ℚ) (channels sampleRate : ℕ)
    (spectrum : List ℚ → List ℚ) (maxDb : ℚ) (a b : List Chunk) (ha : ∀ c ∈ a, 0 < c.frameNum) :
    ∀ st : AnalysisState,
      secondPass flog10 channels sampleRate spectrum maxDb st (a ++ b) =
        secondPass flog10 channels sampleRate spectrum maxDb
          (secondPass flog10 channels sampleRate spectrum maxDb st a) b := by
  induction a with
  | nil => intro st; rfl
  | cons c cs ih =>
    intro st
    have hc : 0 < c.frameNum := ha c (List.mem_cons_self _ _)
    rw [List.cons_append, secondPass_cons_b32 _ _ _ _ _ _ _ _ hc, secondPass_cons_b32 _ _ _ _ _ _ _ _ hc]
    exact ih (fun x hx => ha x (List.mem_cons_of_mem _ hx)) _

theorem secondPass_currentFrame_b32 (flog10 : ℚ → ℚ) (channels sampleRate : ℕ)
    (spectrum : List ℚ → List ℚ) (maxDb : ℚ) (a : List Chunk) (ha : ∀ c ∈ a, 0 < c.frameNum) :
    ∀ st : AnalysisState,
      (secondPass flog10 channels sampleRate spectrum maxDb st a).currentFrame =
        st.currentFrame + offset a := by
  induction a with
  | nil => intro st; simp [secondPass, offset]
  | cons c cs ih =>
    intro st
    have hc : 0 < c.frameNum := ha c (List.mem_cons_self _ _)
    rw [secondPass_cons_b32 _ _ _ _ _ _ _ _ hc, ih (fun x hx => ha x (List.mem_cons_of_mem _ hx)),
      analyzeFrame_currentFrame_b32]
    simp only [offset, List.map_cons, List.sum_cons]
    omega

theorem secondPass_markersOrdered_b32 (flog10 : ℚ → ℚ) (channels sampleRate : ℕ)
    (spectrum : List ℚ → List ℚ) (maxDb : ℚ) (a : List Chunk) :
    ∀ st : AnalysisState, MarkersOrdered st →
      MarkersOrdered (secondPass flog10 channels sampleRate spectrum maxDb st a) := by
  induction a with
  | nil => intro st h; exact h
  | cons c cs ih =>
    intro st h
    unfold secondPass
    split_ifs
    · exact ih _ (analyzeFrame_markersOrdered_b32 flog10 channels sampleRate spectrum maxDb st c h)
    · exact h

theorem secondPass_of_inactive_b32 (flog10 : ℚ → ℚ) (channels sampleRate : ℕ)
    (spectrum : List ℚ → List ℚ) (maxDb : ℚ) (a : List Chunk) (ha : ∀ c ∈ a, ¬ Active flog10 channels c) :
    ∀ st : AnalysisState,
      (secondPass flog10 channels sampleRate spectrum maxDb st a).foundStart = st.foundStart ∧
      (secondPass flog10 channels sampleRate spectrum maxDb st a).firstFrame = st.firstFrame ∧
      (secondPass flog10 channels sampleRate spectrum maxDb st a).lastFrame = st.lastFrame := by
  induction a with
  | nil => intro st; exact ⟨rfl, rfl, rfl⟩
  | cons c cs ih =>
    intro st
    unfold secondPass
    split_ifs
    · obtain ⟨h1, h2, h3⟩ := ih (fun x hx => ha x (List.mem_cons_of_mem _ hx))
        (analyzeFrame flog10 channels sampleRate spectrum maxDb st c)
      obtain ⟨g1, g2, g3⟩ := analyzeFrame_of_inactive_b32 flog10 channels sampleRate spectrum maxDb
        st c (ha c (List.mem_cons_self _ _))
      exact ⟨h1.trans g1, h2.trans g2, h3.trans g3⟩
    · exact ⟨rfl, rfl, rfl⟩

theorem secondPass_of_foundStart_b32 (flog10 : ℚ → ℚ) (channels sampleRate : ℕ)
    (spectrum : List ℚ → List ℚ) (maxDb : ℚ) (a : List Chunk) :
    ∀ st : AnalysisState, st.foundStart = true → MarkersOrdered st →
      (secondPass flog10 channels sampleRate spectrum maxDb st a).foundStart = true ∧
      (secondPass flog10 channels sampleRate spectrum maxDb st a).firstFrame = st.firstFrame ∧
      st.lastFrame ≤ (secondPass flog10 channels sampleRate spectrum maxDb st a).lastFrame := by
  induction a with
  | nil => intro st h _; exact ⟨h, rfl, le_refl _⟩
  | cons c cs ih =>
    intro st h hm
    unfold secondPass
    split_ifs
    · have hm' := analyzeFrame_markersOrdered_b32 flog10 channels sampleRate spectrum maxDb st c hm
      have hst := hm h
      by_cases hc : Active flog10 channels c
      · obtain ⟨g1, g2, g3⟩ :=
          analyzeFrame_of_active_b32 flog10 channels sampleRate spectrum maxDb st c hc
        obtain ⟨h1, h2, h3⟩ := ih _ g1 hm'
        rw [h] at g2
        refine ⟨h1, h2.trans g2, ?_⟩
        omega
      · obtain ⟨g1, g2, g3⟩ :=
          analyzeFrame_of_inactive_b32 flog10 channels sampleRate spectrum maxDb st c hc
        obtain ⟨h1, h2, h3⟩ := ih _ (g1.trans h) hm'
        refine ⟨h1, h2.trans g2, ?_⟩
        omega
    · exact ⟨h, rfl, le_refl _⟩

theorem secondPass_mono_of_false_b32 (flog10 : ℚ → ℚ) (channels sampleRate : ℕ)
    (spectrum : List ℚ → List ℚ) (maxDb : ℚ) (a : List Chunk) :
    ∀ st : AnalysisState, st.mono = false →
      (secondPass flog10 channels sampleRate spectrum maxDb st a).mono = false := by
  induction a with
  | nil => intro st h; exact h
  | cons c cs ih =>
    intro st h
    unfold secondPass
    split_ifs
    · apply ih
      rw [analyzeFrame_mono_b32, h]
      exact scanFrame_mono_false_b32 channels c
    · exact h

theorem secondPass_mono_of_equal_b32 (flog10 : ℚ → ℚ) (channels sampleRate : ℕ)
    (spectrum : List ℚ → List ℚ) (maxDb : ℚ) (a : List Chunk)
    (ha : ∀ c ∈ a, ∀ i < c.frameNum, ¬ (channels ≥ 2 ∧ PairDiffers channels c.buffer i)) :
    ∀ st : AnalysisState, st.mono = true →
      (secondPass flog10 channels sampleRate spectrum maxDb st a).mono = true := by
  induction a with
  | nil => intro st h; exact h
  | cons c cs ih =>
    intro st h
    unfold secondPass
    split_ifs
    · apply ih (fun x hx => ha x (List.mem_cons_of_mem _ hx))
      rw [analyzeFrame_mono_b32, h]
      exact (scanFrame_mono_true_b32 channels c).mpr (ha c (List.mem_cons_self _ _))
    · exact h

theorem secondPass_mono_iff_b32 (flog10 : ℚ → ℚ) (channels sampleRate : ℕ)
    (spectrum : List ℚ → List ℚ) (maxDb : ℚ) (a : List Chunk) (hne : ∀ c ∈ a, 0 < c.frameNum) :
    ∀ st : AnalysisState, st.mono = true →
      ((secondPass flog10 channels sampleRate spectrum maxDb st a).mono = true ↔
        ∀ c ∈ a, ∀ i < c.frameNum, ¬ (channels ≥ 2 ∧ PairDiffers channels c.buffer i)) := by
  induction a with
  | nil => intro st h; simpa [secondPass] using h
  | cons c cs ih =>
    intro st h
    have hc : 0 < c.frameNum := hne c (List.mem_cons_self _ _)
    have hcs : ∀ x ∈ cs, 0 < x.frameNum := fun x hx => hne x (List.mem_cons_of_mem _ hx)
    rw [secondPass_cons_b32 _ _ _ _ _ _ _ _ hc]
    simp only [List.mem_cons, forall_eq_or_imp]
    by_cases hm : (scanFrame channels c true).mono = true
    · have hm' : (analyzeFrame flog10 channels sampleRate spectrum maxDb st c).mono = true := by
        rw [analyzeFrame_mono_b32, h]; exact hm
      rw [ih hcs _ hm']
      have := (scanFrame_mono_true_b32 channels c).mp hm
      constructor
      · intro h2; exact ⟨this, h2⟩
      · intro h2; exact h2.2
    · have hm' : (analyzeFrame flog10 channels sampleRate spectrum maxDb st c).mono = false := by
        rw [analyzeFrame_mono_b32, h]; simpa using hm
      rw [secondPass_mono_of_false_b32 _ _ _ _ _ _ _ hm']
      constructor
      · intro h2; simp at h2
      · intro h2
        exact absurd ((scanFrame_mono_true_b32 channels c).mpr h2.1) hm

theorem markers_of_active_b32 (flog10 : ℚ → ℚ) (channels sampleRate : ℕ)
    (spectrum : List ℚ → List ℚ) (maxDb : ℚ) (a b : List Chunk) (c : Chunk)
    (hne : ∀ x ∈ a ++ c :: b, 0 < x.frameNum) (hc : Active flog10 channels c) :
    (secondPass flog10 channels sampleRate spectrum maxDb initState (a ++ c :: b)).foundStart
      = true ∧
    (secondPass flog10 channels sampleRate spectrum maxDb initState (a ++ c :: b)).firstFrame
      ≤ offset a ∧
    offset a + c.frameNum ≤
      (secondPass flog10 channels sampleRate spectrum maxDb initState (a ++ c :: b)).lastFrame := by
  have ha : ∀ x ∈ a, 0 < x.frameNum := fun x hx => hne x (List.mem_append_left _ hx)
  have hc0 : 0 < c.frameNum := hne c (by simp)
  rw [secondPass_append_b32 _ _ _ _ _ _ _ ha, secondPass_cons_b32 _ _ _ _ _ _ _ _ hc0]
  have hcur := secondPass_currentFrame_b32 flog10 channels sampleRate spectrum maxDb a ha initState
  have hord := secondPass_markersOrdered_b32 flog10 channels sampleRate spectrum maxDb a initState
    initState_markersOrdered
  obtain ⟨g1, g2, g3⟩ := analyzeFrame_of_active_b32 flog10 channels sampleRate spectrum maxDb
    (secondPass flog10 channels sampleRate spectrum maxDb initState a) c hc
  obtain ⟨h1, h2, h3⟩ := secondPass_of_foundStart_b32 flog10 channels sampleRate spectrum maxDb b _ g1
    (analyzeFrame_markersOrdered_b32 flog10 channels sampleRate spectrum maxDb _ c hord)
  have hz : initState.currentFrame = 0 := rfl
  rw [hz, Nat.zero_add] at hcur
  refine ⟨h1, ?_, ?_⟩
  · rw [h2, g2]
    by_cases hs : (secondPass flog10 channels sampleRate spectrum maxDb initState a).foundStart = true
    · have := hord hs
      simp only [hs, if_true]
      omega
    · simp only [hs, Bool.false_eq_true, if_false]
      omega
  · rw [g3, hcur] at h3
    exact h3

theorem firstFrame_of_first_active_b32 (flog10 : ℚ → ℚ) (channels sampleRate : ℕ)
    (spectrum : List ℚ → List ℚ) (maxDb : ℚ) (pre rest : List Chunk) (f : Chunk)
    (hne : ∀ x ∈ pre ++ f :: rest, 0 < x.frameNum)
    (hpre : ∀ x ∈ pre, ¬ Active flog10 channels x) (hf : Active flog10 channels f) :
    (secondPass flog10 channels sampleRate spectrum maxDb initState (pre ++ f :: rest)).firstFrame
      = offset pre := by
  have ha : ∀ x ∈ pre, 0 < x.frameNum := fun x hx => hne x (List.mem_append_left _ hx)
  have hc0 : 0 < f.frameNum := hne f (by simp)
  rw [secondPass_append_b32 _ _ _ _ _ _ _ ha, secondPass_cons_b32 _ _ _ _ _ _ _ _ hc0]
  have hcur := secondPass_currentFrame_b32 flog10 channels sampleRate spectrum maxDb pre ha initState
  have hord := secondPass_markersOrdered_b32 flog10 channels sampleRate spectrum maxDb pre initState
    initState_markersOrdered
  obtain ⟨q1, -, -⟩ := secondPass_of_inactive_b32 flog10 channels sampleRate spectrum maxDb pre hpre
    initState
  obtain ⟨g1, g2, -⟩ := analyzeFrame_of_active_b32 flog10 channels sampleRate spectrum maxDb
    (secondPass flog10 channels sampleRate spectrum maxDb initState pre) f hf
  obtain ⟨-, h2, -⟩ := secondPass_of_foundStart_b32 flog10 channels sampleRate spectrum maxDb rest _ g1
    (analyzeFrame_markersOrdered_b32 flog10 channels sampleRate spectrum maxDb _ f hord)
  have hz : initState.currentFrame = 0 := rfl
  have hfs : initState.foundStart = false := rfl
  rw [hz, Nat.zero_add] at hcur
  rw [hfs] at q1
  rw [h2, g2, q1, hcur]
  simp

theorem lastFrame_of_last_active_b32 (flog10 : ℚ → ℚ) (channels sampleRate : ℕ)
    (spectrum : List ℚ → List ℚ) (maxDb : ℚ) (init post : List Chunk) (l : Chunk)
    (hne : ∀ x ∈ init ++ l :: post, 0 < x.frameNum)
    (hl : Active flog10 channels l) (hpost : ∀ x ∈ post, ¬ Active flog10 channels x) :
    (secondPass flog10 channels sampleRate spectrum maxDb initState (init ++ l :: post)).lastFrame
      = offset init + l.frameNum := by
  have ha : ∀ x ∈ init, 0 < x.frameNum := fun x hx => hne x (List.mem_append_left _ hx)
  have hc0 : 0 < l.frameNum := hne l (by simp)
  rw [secondPass_append_b32 _ _ _ _ _ _ _ ha, secondPass_cons_b32 _ _ _ _ _ _ _ _ hc0]
  have hcur := secondPass_currentFrame_b32 flog10 channels sampleRate spectrum maxDb init ha initState
  obtain ⟨-, -, g3⟩ := analyzeFrame_of_active_b32 flog10 channels sampleRate spectrum maxDb
    (secondPass flog10 channels sampleRate spectrum maxDb initState init) l hl
  obtain ⟨-, -, h3⟩ := secondPass_of_inactive_b32 flog10 channels sampleRate spectrum maxDb post hpost
    (analyzeFrame flog10 channels sampleRate spectrum maxDb
      (secondPass flog10 channels sampleRate spectrum maxDb initState init) l)
  have hz : initState.currentFrame = 0 := rfl
  rw [hz, Nat.zero_add] at hcur
  rw [h3, g3, hcur]

/-! ## Claims on the second pass in binary32 -/

/-- C6: for every stream of non-empty frames with an active frame, whatever the
library's `log10f` returns, `firstFrame` (trimStart) after the second pass is the
offset at which the first active frame begins and `lastFrame` (trimEnd) the
offset at which the last active frame ends, a frame being active when the level
the program computes for it in binary32 is above -50 dB (last component: the level is
`20.0f * log10f((peak + EPSILON) + EPSILON)`, each operation rounded); every
frame that lies wholly before trimStart or wholly after trimEnd is silent, every
active frame lies inside the range, and so does every frame between two active
frames. -/
theorem trim_markers_at_first_and_last_active (flog10 : ℚ → ℚ) (channels sampleRate : ℕ)
    (spectrum : List ℚ → List ℚ) (maxDb : ℚ)
    (stream pre rest init post : List Chunk) (f l : Chunk)
    (hne : ∀ c ∈ stream, 0 < c.frameNum)
    (hfirst : stream = pre ++ f :: rest) (hpre : ∀ c ∈ pre, ¬ Active flog10 channels c)
    (hf : Active flog10 channels f)
    (hlast : stream = init ++ l :: post) (hl : Active flog10 channels l)
    (hpost : ∀ c ∈ post, ¬ Active flog10 channels c) :
    (secondPass flog10 channels sampleRate spectrum maxDb initState stream).foundStart
      = true ∧
    (secondPass flog10 channels sampleRate spectrum maxDb initState stream).firstFrame
      = offset pre ∧
    (secondPass flog10 channels sampleRate spectrum maxDb initState stream).lastFrame
      = offset init + l.frameNum ∧
    (∀ a c b, stream = a ++ c :: b →
      offset a + c.frameNum ≤
          (secondPass flog10 channels sampleRate spectrum maxDb initState stream).firstFrame ∨
        (secondPass flog10 channels sampleRate spectrum maxDb initState stream).lastFrame
          ≤ offset a →
      ¬ Active flog10 channels c) ∧
    (∀ a c b, stream = a ++ c :: b → Active flog10 channels c →
      (secondPass flog10 channels sampleRate spectrum maxDb initState stream).firstFrame
        ≤ offset a ∧
      offset a + c.frameNum ≤
        (secondPass flog10 channels sampleRate spectrum maxDb initState stream).lastFrame) ∧
    (∀ a x m c n y b, stream = a ++ x :: (m ++ c :: (n ++ y :: b)) →
      Active flog10 channels x → Active flog10 channels y →
      (secondPass flog10 channels sampleRate spectrum maxDb initState stream).firstFrame
        ≤ offset (a ++ x :: m) ∧
      offset (a ++ x :: m) + c.frameNum ≤
        (secondPass flog10 channels sampleRate spectrum maxDb initState stream).lastFrame) ∧
    (∀ c, Active flog10 channels c ↔
      rnd (20 * flog10 (rnd (rnd ((scanFrame channels c true).peak + EPSILON) + EPSILON)))
        > -50) := by
  have hinside : ∀ a c b, stream = a ++ c :: b → Active flog10 channels c →
      (secondPass flog10 channels sampleRate spectrum maxDb initState stream).foundStart
        = true ∧
      (secondPass flog10 channels sampleRate spectrum maxDb initState stream).firstFrame
        ≤ offset a ∧
      offset a + c.frameNum ≤
        (secondPass flog10 channels sampleRate spectrum maxDb initState stream).lastFrame := by
    intro a c b hs hc
    have hne' : ∀ x ∈ a ++ c :: b, 0 < x.frameNum := hs ▸ hne
    have := markers_of_active_b32 flog10 channels sampleRate spectrum maxDb a b c hne' hc
    rw [← hs] at this
    exact this
  have hF : (secondPass flog10 channels sampleRate spectrum maxDb initState stream).firstFrame
      = offset pre := by
    have hne' : ∀ x ∈ pre ++ f :: rest, 0 < x.frameNum := hfirst ▸ hne
    have := firstFrame_of_first_active_b32 flog10 channels sampleRate spectrum maxDb
      pre rest f hne' hpre hf
    rw [← hfirst] at this
    exact this
  have hL : (secondPass flog10 channels sampleRate spectrum maxDb initState stream).lastFrame
      = offset init + l.frameNum := by
    have hne' : ∀ x ∈ init ++ l :: post, 0 < x.frameNum := hlast ▸ hne
    have := lastFrame_of_last_active_b32 flog10 channels sampleRate spectrum maxDb
      init post l hne' hl hpost
    rw [← hlast] at this
    exact this
  refine ⟨(hinside pre f rest hfirst hf).1, hF, hL, ?_, ?_, ?_, fun _ => Iff.rfl⟩
  · intro a c b hs hor hc
    have hc0 : 0 < c.frameNum := hne c (by rw [hs]; simp)
    obtain ⟨-, h1, h2⟩ := hinside a c b hs hc
    rcases hor with h | h <;> omega
  · intro a c b hs hc
    exact (hinside a c b hs hc).2
  · intro a x m c n y b hs hx hy
    obtain ⟨-, h1, -⟩ := hinside a x (m ++ c :: (n ++ y :: b)) hs hx
    have hs' : stream = (a ++ x :: (m ++ c :: n)) ++ y :: b := by
      rw [hs]; simp
    obtain ⟨-, -, h2⟩ := hinside _ y b hs' hy
    simp only [offset_append, offset_cons] at h1 h2 ⊢
    omega

/-- Witness of C6: a mono stream of five blocks, silent, active, silent, active,
silent, of 2, 2, 1, 2 and 3 PCM frames, with `floor(log10 x)` standing for the
library's `log10f`: trimStart is 2 and trimEnd is 7. -/
theorem trim_markers_example :
    (secondPass log10Floor 1 44100 (fun _ => []) 0 initState
      [⟨2, [0, 0]⟩, ⟨2, [1 / 2, 0]⟩, ⟨1, [0]⟩, ⟨2, [0, 1 / 4]⟩, ⟨3, [0, 0, 0]⟩]).firstFrame
      = 2 ∧
    (secondPass log10Floor 1 44100 (fun _ => []) 0 initState
      [⟨2, [0, 0]⟩, ⟨2, [1 / 2, 0]⟩, ⟨1, [0]⟩, ⟨2, [0, 1 / 4]⟩, ⟨3, [0, 0, 0]⟩]).lastFrame
      = 7 := by
  have e1 : |(1 / 2 : ℚ)| = 1 / 2 := abs_of_pos (by norm_num)
  have e2 : |(1 / 4 : ℚ)| = 1 / 4 := abs_of_pos (by norm_num)
  have p0 : (scanFrame 1 ⟨2, [0, 0]⟩ true).peak = 0 := by
    norm_num [scanFrame, scanSample, List.range_succ]
  have p1 : (scanFrame 1 ⟨2, [1 / 2, 0]⟩ true).peak = 1 / 2 := by
    norm_num [scanFrame, scanSample, List.range_succ, e1]
  have p3 : (scanFrame 1 ⟨2, [0, 1 / 4]⟩ true).peak = 1 / 4 := by
    norm_num [scanFrame, scanSample, List.range_succ, e2]
  have p4 : (scanFrame 1 ⟨3, [0, 0, 0]⟩ true).peak = 0 := by
    norm_num [scanFrame, scanSample, List.range_succ]
  have h := trim_markers_at_first_and_last_active log10Floor 1 44100 (fun _ => []) 0
    [⟨2, [0, 0]⟩, ⟨2, [1 / 2, 0]⟩, ⟨1, [0]⟩, ⟨2, [0, 1 / 4]⟩, ⟨3, [0, 0, 0]⟩]
    [⟨2, [0, 0]⟩] [⟨1, [0]⟩, ⟨2, [0, 1 / 4]⟩, ⟨3, [0, 0, 0]⟩]
    [⟨2, [0, 0]⟩, ⟨2, [1 / 2, 0]⟩, ⟨1, [0]⟩] [⟨3, [0, 0, 0]⟩]
    ⟨2, [1 / 2, 0]⟩ ⟨2, [0, 1 / 4]⟩
    (by simp) rfl
    (by
      intro c hc
      rw [List.mem_singleton] at hc
      subst hc
      unfold Active
      rw [p0, MagToDb_log10Floor_zero]
      norm_num [MINIMUM_DB])
    (by
      unfold Active
      rw [p1, MagToDb_log10Floor_half]
      norm_num [MINIMUM_DB])
    rfl
    (by
      unfold Active
      rw [p3, MagToDb_log10Floor_quarter]
      norm_num [MINIMUM_DB])
    (by
      intro c hc
      rw [List.mem_singleton] at hc
      subst hc
      unfold Active
      rw [p4, MagToDb_log10Floor_zero]
      norm_num [MINIMUM_DB])
  exact ⟨h.2.1, h.2.2.1⟩

/-- C7 (as stated, refuted): the stereo pair `left = 1e-9f = 9007199 * 2^-53`,
`right = -3 * 2^-56` has `|left - right| > 1e-9`, yet its binary32 difference
rounds to `1e-9f`, which is not above `EPSILON`, and the mono flag of the stream
made of this one pair stays true. -/
theorem mono_flag_kept_by_rounding :
    |(9007199 / 2 ^ 53 : ℚ) - (-3 / 2 ^ 56)| > 1 / 1000000000 ∧
    fsub (9007199 / 2 ^ 53) (-3 / 2 ^ 56) = EPSILON ∧
    (∀ (flog10 : ℚ → ℚ) (sampleRate : ℕ) (spectrum : List ℚ → List ℚ) (maxDb : ℚ),
      (secondPass flog10 2 sampleRate spectrum maxDb initState
        [⟨1, [9007199 / 2 ^ 53, -3 / 2 ^ 56]⟩]).mono = true) := by
  have hd : (9007199 / 2 ^ 53 : ℚ) - (-3 / 2 ^ 56) = 72057595 / 2 ^ 56 := by norm_num
  have hsub : fsub (9007199 / 2 ^ 53) (-3 / 2 ^ 56) = EPSILON := by
    unfold fsub
    rw [hd]
    have e1 : |(72057595 / 2 ^ 56 : ℚ)| = 72057595 / 2 ^ 56 := abs_of_pos (by norm_num)
    rw [rnd_eq_of_binade _ (-30) 9007199 (by norm_num)
      (by rw [e1]; norm_num) (by rw [e1]; norm_num)
      (by rw [abs_lt]; constructor <;> norm_num)]
    norm_num [EPSILON]
  refine ⟨?_, hsub, ?_⟩
  · rw [hd, abs_of_pos (by norm_num)]
    norm_num
  · intro flog10 sampleRate spectrum maxDb
    apply secondPass_mono_of_equal_b32 flog10 2 sampleRate spectrum maxDb _ _ initState rfl
    intro c hc i hi
    rw [List.mem_singleton] at hc
    subst hc
    have : i = 0 := by simpa using hi
    subst this
    rintro ⟨-, h⟩
    unfold PairDiffers at h
    have e : fsub (([9007199 / 2 ^ 53, -3 / 2 ^ 56] : List ℚ).getD (0 * 2) 0)
        (([9007199 / 2 ^ 53, -3 / 2 ^ 56] : List ℚ).getD (0 * 2 + 1) 0) = EPSILON := hsub
    simp only at h
    rw [e, abs_of_pos (by norm_num [EPSILON])] at h
    exact lt_irrefl _ h

/-- C7 (amended): for every stereo stream of non-empty frames (two or more
channels, of which the first two are compared) the mono flag after the second
pass is true if and only if for every sample pair the binary32 difference
`left - right`, the exact difference rounded to nearest, has absolute value at
most the binary32 constant `1e-9f`; once the flag is false after some frames it
is false at the end. -/
theorem mono_flag_iff_rounded_difference_small (flog10 : ℚ → ℚ) (channels sampleRate : ℕ)
    (spectrum : List ℚ → List ℚ) (maxDb : ℚ) (stream : List Chunk) (hch : 2 ≤ channels)
    (hne : ∀ c ∈ stream, 0 < c.frameNum) :
    ((secondPass flog10 channels sampleRate spectrum maxDb initState stream).mono = true ↔
      ∀ c ∈ stream, ∀ i < c.frameNum,
        |rnd (c.buffer.getD (i * channels) 0 - c.buffer.getD (i * channels + 1) 0)|
          ≤ EPSILON) ∧
    (∀ a b, stream = a ++ b →
      (secondPass flog10 channels sampleRate spectrum maxDb initState a).mono = false →
      (secondPass flog10 channels sampleRate spectrum maxDb initState stream).mono = false) ∧
    EPSILON = rnd (1 / 1000000000) ∧ EPSILON = 9007199 / 2 ^ 53 := by
  refine ⟨?_, ?_, EPSILON_eq_rnd.symm, rfl⟩
  · rw [secondPass_mono_iff_b32 flog10 channels sampleRate spectrum maxDb stream hne
      initState rfl]
    simp only [PairDiffers, fsub, hch, ge_iff_le, true_and, not_lt]
  · intro a b hs h
    have ha : ∀ c ∈ a, 0 < c.frameNum := fun c hc => hne c (by rw [hs]; simp [hc])
    have := secondPass_append_b32 flog10 channels sampleRate spectrum maxDb a b ha initState
    rw [← hs] at this
    rw [this]
    exact secondPass_mono_of_false_b32 _ _ _ _ _ _ _ h

/-- Witness of C7 (amended): a stereo stream of two blocks whose only differing
pair is in the second block has the mono flag false; with that pair equal it is
true. -/
theorem mono_flag_example :
    (secondPass log10Floor 2 44100 (fun _ => []) 0 initState
      [⟨1, [1 / 2, 1 / 2]⟩, ⟨1, [0, 1 / 4]⟩]).mono = false ∧
    (secondPass log10Floor 2 44100 (fun _ => []) 0 initState
      [⟨1, [1 / 2, 1 / 2]⟩, ⟨1, [0, 0]⟩]).mono = true := by
  have r4 : rnd (-(1 / 4) : ℚ) = -(1 / 4) :=
    rnd_eq_self_of_dyadic _ (-1) (-2) (by norm_num) (by norm_num) (by norm_num)
  constructor
  · have h := (mono_flag_iff_rounded_difference_small log10Floor 2 44100 (fun _ => []) 0
      [⟨1, [1 / 2, 1 / 2]⟩, ⟨1, [0, 1 / 4]⟩] (le_refl _) (by simp)).1
    rw [← Bool.not_eq_true, h]
    intro hall
    have := hall ⟨1, [0, 1 / 4]⟩ (by simp) 0 (by norm_num)
    have e : |(-(1 / 4) : ℚ)| = 1 / 4 := by
      rw [abs_neg]; exact abs_of_pos (by norm_num)
    norm_num [r4, e, EPSILON] at this
  · have h := (mono_flag_iff_rounded_difference_small log10Floor 2 44100 (fun _ => []) 0
      [⟨1, [1 / 2, 1 / 2]⟩, ⟨1, [0, 0]⟩] (le_refl _) (by simp)).1
    rw [h]
    intro c hc i hi
    simp only [List.mem_cons, List.mem_singleton, List.not_mem_nil, or_false] at hc
    rcases hc with rfl | rfl
    · have : i = 0 := by simpa using hi
      subst this
      norm_num [rnd_zero, EPSILON]
    · have : i = 0 := by simpa using hi
      subst this
      norm_num [rnd_zero, EPSILON]

/-! ## The dominant frequency in binary32 -/

theorem rnd_ge_half (x : ℚ) (hx : (2 : ℚ) ^ (-126 : ℤ) ≤ x) : x / 2 ≤ rnd x := by
  have hpos : 0 < x := lt_of_lt_of_le (two_zpow_pos _) hx
  have h := rnd_rel x (by rwa [abs_of_pos hpos])
  rw [abs_of_pos hpos, abs_le] at h
  have e24 : (2 : ℚ) ^ (-24 : ℤ) = 1 / 16777216 := by norm_num
  rw [e24] at h
  linarith [h.1]

theorem bestFreq_zero (sampleRate : ℕ) :
    fmul (rnd ((0 : ℕ) : ℚ)) (fdiv (rnd (sampleRate : ℚ)) (FRAME_SIZE : ℚ)) = 0 := by
  unfold fmul
  rw [Nat.cast_zero, rnd_zero, zero_mul, rnd_zero]

theorem bestFreq_pos (i sampleRate : ℕ) (hi : 0 < i) (hsr : 0 < sampleRate) :
    0 < fmul (rnd (i : ℚ)) (fdiv (rnd (sampleRate : ℚ)) (FRAME_SIZE : ℚ)) := by
  have e126 : (2 : ℚ) ^ (-126 : ℤ) ≤ 1 / 8192 := by
    have : (2 : ℚ) ^ (-126 : ℤ) ≤ 2 ^ (-13 : ℤ) := zpow_le_zpow_right₀ (by norm_num) (by norm_num)
    have e : (2 : ℚ) ^ (-13 : ℤ) = 1 / 8192 := by norm_num
    rwa [e] at this
  have hiq : (1 : ℚ) ≤ i := by exact_mod_cast hi
  have hsq : (1 : ℚ) ≤ sampleRate := by exact_mod_cast hsr
  have a := rnd_ge_half (i : ℚ) (le_trans e126 (by linarith))
  have b := rnd_ge_half (sampleRate : ℚ) (le_trans e126 (by linarith))
  have hF : ((FRAME_SIZE : ℕ) : ℚ) = 1024 := by norm_num [FRAME_SIZE]
  have c := rnd_ge_half (rnd (sampleRate : ℚ) / 1024) (le_trans e126 (by linarith))
  unfold fmul fdiv
  rw [hF]
  apply rnd_pos
  refine le_trans e126 ?_
  have h1 : (1 : ℚ) / 2 ≤ rnd (i : ℚ) := by linarith
  have h2 : (1 : ℚ) / 4096 ≤ rnd (rnd (sampleRate : ℚ) / 1024) := by linarith
  nlinarith

theorem bestFreq_exact (i sampleRate : ℕ) (h : i * sampleRate < 2 ^ 24) :
    fmul (rnd (i : ℚ)) (fdiv (rnd (sampleRate : ℚ)) (FRAME_SIZE : ℚ)) =
      (i : ℚ) * (sampleRate : ℚ) / (FRAME_SIZE : ℚ) := by
  rcases Nat.eq_zero_or_pos i with rfl | hi
  · rw [bestFreq_zero]; simp
  rcases Nat.eq_zero_or_pos sampleRate with rfl | hs
  · unfold fmul fdiv
    simp [rnd_zero]
  have hi24 : i < 2 ^ 24 := lt_of_le_of_lt (Nat.le_mul_of_pos_right i hs) h
  have hs24 : sampleRate < 2 ^ 24 := lt_of_le_of_lt (Nat.le_mul_of_pos_left sampleRate hi) h
  have hF : ((FRAME_SIZE : ℕ) : ℚ) = 1024 := by norm_num [FRAME_SIZE]
  unfold fmul fdiv
  rw [rnd_natCast i hi24, rnd_natCast sampleRate hs24, hF]
  have e1 : rnd ((sampleRate : ℚ) / 1024) = (sampleRate : ℚ) / 1024 :=
    rnd_eq_self_of_dyadic _ (sampleRate : ℤ) (-10) (by norm_num)
      (by rw [abs_of_nonneg (by positivity)]; exact_mod_cast hs24)
      (by push_cast; norm_num; ring)
  rw [e1]
  have e2 : rnd ((i : ℚ) * ((sampleRate : ℚ) / 1024)) = (i : ℚ) * ((sampleRate : ℚ) / 1024) :=
    rnd_eq_self_of_dyadic _ ((i * sampleRate : ℕ) : ℤ) (-10) (by norm_num)
      (by rw [abs_of_nonneg (by positivity)]; exact_mod_cast h)
      (by push_cast; norm_num; ring)
  rw [e2]
  ring

theorem findBestFreq_of_greatest_b32 (flog10 : ℚ → ℚ) (maxDb : ℚ) (sampleRate : ℕ)
    (mags : List ℚ) (i : ℕ) (hq : Qualifies flog10 maxDb (mags.getD i 0)) :
    ∀ n, i < n → (∀ j, i < j → j < n → ¬ Qualifies flog10 maxDb (mags.getD j 0)) →
      findBestFreq flog10 maxDb sampleRate mags n =
        fmul (rnd (i : ℚ)) (fdiv (rnd (sampleRate : ℚ)) (FRAME_SIZE : ℚ)) := by
  intro n
  induction n with
  | zero => intro h; omega
  | succ n ih =>
    intro hi hj
    rcases Nat.lt_succ_iff_lt_or_eq.mp hi with hlt | heq
    · have hn := hj n hlt (Nat.lt_succ_self n)
      unfold Qualifies at hn
      rw [findBestFreq, if_neg hn]
      exact ih hlt (fun j h1 h2 => hj j h1 (Nat.lt_succ_of_lt h2))
    · subst heq
      unfold Qualifies at hq
      rw [findBestFreq, if_pos hq]

theorem findBestFreq_pos_iff_b32 (flog10 : ℚ → ℚ) (maxDb : ℚ) (sampleRate : ℕ)
    (hsr : 0 < sampleRate) (mags : List ℚ) :
    ∀ n, (0 < findBestFreq flog10 maxDb sampleRate mags n ↔
      ∃ i, 0 < i ∧ i < n ∧ Qualifies flog10 maxDb (mags.getD i 0)) := by
  intro n
  induction n with
  | zero => simp [findBestFreq]
  | succ n ih =>
    by_cases hq : Qualifies flog10 maxDb (mags.getD n 0)
    · have hq' := hq
      unfold Qualifies at hq'
      rw [findBestFreq, if_pos hq']
      constructor
      · intro h
        rcases Nat.eq_zero_or_pos n with h0 | hn
        · subst h0
          rw [bestFreq_zero] at h
          exact absurd h (lt_irrefl _)
        · exact ⟨n, hn, Nat.lt_succ_self n, hq⟩
      · rintro ⟨i, hi0, hin, -⟩
        exact bestFreq_pos n sampleRate (by omega) hsr
    · have hq' := hq
      unfold Qualifies at hq'
      rw [findBestFreq, if_neg hq', ih]
      constructor
      · rintro ⟨i, hi0, hin, h⟩
        exact ⟨i, hi0, Nat.lt_succ_of_lt hin, h⟩
      · rintro ⟨i, hi0, hin, h⟩
        rcases Nat.lt_succ_iff_lt_or_eq.mp hin with hlt | heq
        · exact ⟨i, hi0, hlt, h⟩
        · subst heq; exact absurd h hq

theorem analyzeFrame_frameFreqs_b32 (flog10 : ℚ → ℚ) (channels sampleRate : ℕ)
    (spectrum : List ℚ → List ℚ) (maxDb : ℚ) (st : AnalysisState) (c : Chunk) :
    (analyzeFrame flog10 channels sampleRate spectrum maxDb st c).frameFreqs =
      if findBestFreq flog10 maxDb sampleRate (frameMags channels spectrum st.mono c)
          (frameMags channels spectrum st.mono c).length > 0
      then st.frameFreqs ++
        [findBestFreq flog10 maxDb sampleRate (frameMags channels spectrum st.mono c)
          (frameMags channels spectrum st.mono c).length]
      else st.frameFreqs := rfl

theorem fsub_self_zero : fsub 0 0 = 0 := by
  unfold fsub
  rw [sub_zero, rnd_zero]

/-- C8 (as stated, refuted): with the one-bin spectrum `[1]` and `peakDb = 0`,
bin `0` satisfies both conditions of the claim, `MagToDb(1) > -50` and
`0 - MagToDb(1) < 15`, and it passes both tests of the program whenever the
library's `log10f` returns `0` at `1`, as C requires; yet the frame contributes
no entry (a one-bin spectrum never does), although a bin satisfies both
conditions. -/
theorem dominant_frequency_bin_zero_dropped :
    (AudioOptimizer.MagToDb 1 > (MINIMUM_DB : ℝ) ∧
      (0 : ℝ) - AudioOptimizer.MagToDb 1 < (CONTRAST_DB : ℝ)) ∧
    (∀ flog10 : ℚ → ℚ, flog10 1 = 0 → Qualifies flog10 0 (([1] : List ℚ).getD 0 0)) ∧
    (∀ (flog10 : ℚ → ℚ) (channels sampleRate : ℕ) (peakDb : ℚ) (st : AnalysisState)
        (c : Chunk),
      (analyzeFrame flog10 channels sampleRate (fun _ => [1]) peakDb st c).frameFreqs
        = st.frameFreqs) := by
  have hM : ((MINIMUM_DB : ℚ) : ℝ) = -50 := by norm_num [MINIMUM_DB]
  have hC : ((CONTRAST_DB : ℚ) : ℝ) = 15 := by norm_num [CONTRAST_DB]
  have p1 : 0 < AudioOptimizer.MagToDb 1 := MagToDb_pos 1 (le_refl _)
  refine ⟨⟨?_, ?_⟩, ?_, ?_⟩
  · rw [hM]; linarith
  · rw [hC]; linarith
  · intro flog10 h1
    unfold Qualifies
    simp only [List.getD_cons_zero]
    rw [MagToDb_one flog10 h1, fsub_self_zero]
    norm_num [MINIMUM_DB, CONTRAST_DB]
  · intro flog10 channels sampleRate peakDb st c
    rw [analyzeFrame_frameFreqs_b32]
    have hl : (frameMags channels (fun _ => [1]) st.mono c) = [1] := rfl
    rw [hl]
    have hz : findBestFreq flog10 peakDb sampleRate [1] ([1] : List ℚ).length = 0 := by
      simp only [List.length_singleton, findBestFreq]
      split_ifs
      · exact bestFreq_zero sampleRate
      · rfl
    rw [hz]
    simp

/-- C8 (amended): for every magnitude spectrum of a frame, every global peak
level `peakDb` and every positive sample rate, whatever the library's `log10f`
returns, the value `bestFreq` chosen by the scan is the binary32 product of `i`
and `sampleRate / FRAME_SIZE`, which is `i * sampleRate / FRAME_SIZE` exactly
when `i * sampleRate < 2^24`, where `i` is the greatest bin index that passes
both tests as the program evaluates them in binary32 (`freqDb > -50` and
`peakDb - freqDb < 15`, with `freqDb = MagToDb(mags[i] + EPSILON)`); the frame
contributes that value when `i ≥ 1`, and it contributes no entry exactly when no
bin of index at least `1` passes both tests. -/
theorem dominant_frequency_highest_passing_bin (flog10 : ℚ → ℚ) (channels sampleRate : ℕ)
    (spectrum : List ℚ → List ℚ) (peakDb : ℚ) (st : AnalysisState) (c : Chunk)
    (hsr : 0 < sampleRate) :
    (∀ i, i < (frameMags channels spectrum st.mono c).length →
      Qualifies flog10 peakDb ((frameMags channels spectrum st.mono c).getD i 0) →
      (∀ j, i < j → j < (frameMags channels spectrum st.mono c).length →
        ¬ Qualifies flog10 peakDb ((frameMags channels spectrum st.mono c).getD j 0)) →
      findBestFreq flog10 peakDb sampleRate (frameMags channels spectrum st.mono c)
          (frameMags channels spectrum st.mono c).length =
        fmul (rnd (i : ℚ)) (fdiv (rnd (sampleRate : ℚ)) (FRAME_SIZE : ℚ))) ∧
    (∀ i : ℕ, i * sampleRate < 2 ^ 24 →
      fmul (rnd (i : ℚ)) (fdiv (rnd (sampleRate : ℚ)) (FRAME_SIZE : ℚ)) =
        (i : ℚ) * (sampleRate : ℚ) / (FRAME_SIZE : ℚ)) ∧
    (∀ i, 0 < i → i < (frameMags channels spectrum st.mono c).length →
      Qualifies flog10 peakDb ((frameMags channels spectrum st.mono c).getD i 0) →
      (∀ j, i < j → j < (frameMags channels spectrum st.mono c).length →
        ¬ Qualifies flog10 peakDb ((frameMags channels spectrum st.mono c).getD j 0)) →
      (analyzeFrame flog10 channels sampleRate spectrum peakDb st c).frameFreqs =
        st.frameFreqs ++
          [fmul (rnd (i : ℚ)) (fdiv (rnd (sampleRate : ℚ)) (FRAME_SIZE : ℚ))]) ∧
    ((analyzeFrame flog10 channels sampleRate spectrum peakDb st c).frameFreqs
        = st.frameFreqs ↔
      ∀ i, 0 < i → i < (frameMags channels spectrum st.mono c).length →
        ¬ Qualifies flog10 peakDb ((frameMags channels spectrum st.mono c).getD i 0)) ∧
    (∀ m, Qualifies flog10 peakDb m ↔
      rnd (20 * flog10 (rnd (rnd (m + EPSILON) + EPSILON))) > -50 ∧
      rnd (peakDb - rnd (20 * flog10 (rnd (rnd (m + EPSILON) + EPSILON)))) < 15) := by
  have hpos := findBestFreq_pos_iff_b32 flog10 peakDb sampleRate hsr
    (frameMags channels spectrum st.mono c) (frameMags channels spectrum st.mono c).length
  refine ⟨?_, fun i h => bestFreq_exact i sampleRate h, ?_, ?_, fun _ => Iff.rfl⟩
  · intro i hi hq hj
    exact findBestFreq_of_greatest_b32 flog10 peakDb sampleRate _ i hq _ hi hj
  · intro i hi0 hi hq hj
    have hb := findBestFreq_of_greatest_b32 flog10 peakDb sampleRate _ i hq _ hi hj
    have hp : 0 < findBestFreq flog10 peakDb sampleRate
        (frameMags channels spectrum st.mono c)
        (frameMags channels spectrum st.mono c).length := hpos.mpr ⟨i, hi0, hi, hq⟩
    rw [analyzeFrame_frameFreqs_b32, if_pos hp, hb]
  · rw [analyzeFrame_frameFreqs_b32]
    constructor
    · intro h i hi0 hi hq
      have hp : 0 < findBestFreq flog10 peakDb sampleRate
          (frameMags channels spectrum st.mono c)
          (frameMags channels spectrum st.mono c).length := hpos.mpr ⟨i, hi0, hi, hq⟩
      rw [if_pos hp] at h
      simp at h
    · intro h
      have hn : ¬ 0 < findBestFreq flog10 peakDb sampleRate
          (frameMags channels spectrum st.mono c)
          (frameMags channels spectrum st.mono c).length := by
        rw [hpos]
        rintro ⟨i, hi0, hi, hq⟩
        exact h i hi0 hi hq
      rw [if_neg hn]

/-- Witness of C8 (amended): with the spectrum `[0, 1, 0]`, `peakDb = 0`, sample
rate `2048` and `floor(log10 x)` standing for the library's `log10f`, bin `1` is
the greatest passing bin and the frame contributes `1 * 2048 / 1024 = 2`. -/
theorem dominant_frequency_example :
    (analyzeFrame log10Floor 1 2048 (fun _ => [0, 1, 0]) 0 initState ⟨1, [0]⟩).frameFreqs
      = [2] := by
  have h := dominant_frequency_highest_passing_bin log10Floor 1 2048 (fun _ => [0, 1, 0]) 0
    initState ⟨1, [0]⟩ (by norm_num)
  have h3 := h.2.2.1 1 (by norm_num) (by simp [frameMags])
    (by
      simp only [frameMags, Qualifies]
      have e : ([0, 1, 0] : List ℚ).getD 1 0 = 1 := rfl
      rw [e, MagToDb_one log10Floor log10Floor_one, fsub_self_zero]
      norm_num [MINIMUM_DB, CONTRAST_DB])
    (by
      intro j h1 h2
      simp only [frameMags, List.length_cons, List.length_nil] at h2
      have : j = 2 := by omega
      subst this
      simp only [frameMags, Qualifies]
      have e : ([0, 1, 0] : List ℚ).getD 2 0 = 0 := rfl
      rw [e, MagToDb_log10Floor_zero]
      norm_num [MINIMUM_DB])
  rw [h3, h.2.1 1 (by norm_num)]
  norm_num [initState, FRAME_SIZE]

end Binary32

end AudioOptimizer
